import Mathlib

/-!
Shallow embedding of the prsc parser-combinator library.

Inputs are JavaScript strings, modelled as lists of UTF-16 code units
(natural numbers, below 2^16 for well-formed strings). `ParseResult`
mirrors the library's tagged union, `Parser T` the function type
`(input: string, offset: number) => ParseResult<T>`. The JavaScript
`undefined` value produced by value-discarding parsers is modelled as
`Unit`; optional arguments are modelled as explicit `Option` arguments.
The two `while (true)` loops of the library (`star`/`starConsumed` and
`codepoints`, plus the streaming repetition) are modelled with an explicit
fuel argument of `input.length + 1`, which is proved sufficient below for
parsers satisfying the library's offset invariants.
-/

namespace Prsc

/-- A JavaScript string: a finite sequence of UTF-16 code units. -/
abbrev JSString := List Nat

/-- Embeds an ASCII Lean string as a list of UTF-16 code units. -/
def jsOfString (s : String) : JSString :=
  s.data.map Char.toNat

/-- Mirrors `ParseResult<T>`: success with an offset and a value, or failure
with an offset, expected descriptions, and a fatal flag. -/
inductive ParseResult (T : Type) where
  | success (offset : Nat) (value : T)
  | failure (offset : Nat) (expected : List JSString) (fatal : Bool)
  deriving DecidableEq

/-- The offset carried by a ParseResult, success or failure. -/
def ParseResult.offset {T : Type} : ParseResult T → Nat
  | .success o _ => o
  | .failure o _ _ => o

/-- Mirrors `Parser<T> = (input: string, offset: number) => ParseResult<T>`. -/
abbrev Parser (T : Type) := JSString → Nat → ParseResult T

/-- Mirrors `okWithValue`. -/
def okWithValue {T : Type} (offset : Nat) (value : T) : ParseResult T :=
  .success offset value

/-- Mirrors `ok`: success carrying the discarded (`undefined`) value. -/
def ok (offset : Nat) : ParseResult Unit :=
  okWithValue offset ()

/-- Mirrors `error`; the source's optional `fatal` argument defaults to
`false` at call sites that omit it, so it is passed explicitly here. -/
def error {T : Type} (offset : Nat) (expected : List JSString) (fatal : Bool) : ParseResult T :=
  .failure offset expected fatal

/-- Mirrors JavaScript `String.prototype.codePointAt` on UTF-16 code units:
none past the end of the string, the combined code point at a valid
surrogate pair, and the unit itself otherwise (including lone surrogates). -/
def codePointAt (input : JSString) (offset : Nat) : Option Nat :=
  match input.get? offset with
  | none => none
  | some c1 =>
    if 0xd800 ≤ c1 ∧ c1 ≤ 0xdbff then
      match input.get? (offset + 1) with
      | some c2 =>
        if 0xdc00 ≤ c2 ∧ c2 ≤ 0xdfff then
          some ((c1 - 0xd800) * 0x400 + (c2 - 0xdc00) + 0x10000)
        else some c1
      | none => some c1
    else some c1

/-- Mirrors `lengthFromCodePoint`: the UTF-16 width of a code point. -/
def lengthFromCodePoint (cp : Nat) : Nat :=
  if cp > 0xffff then 2 else 1

/-- Mirrors JavaScript `String.fromCodePoint` for a single code point:
its UTF-16 encoding as one unit or a surrogate pair. -/
def unitsOfCodePoint (cp : Nat) : JSString :=
  if cp > 0xffff then
    [0xd800 + (cp - 0x10000) / 0x400, 0xdc00 + (cp - 0x10000) % 0x400]
  else [cp]

/-- Mirrors `token`: matches the given string literally. -/
def token (tok : JSString) : Parser JSString :=
  fun input offset =>
    if (input.drop offset).take tok.length = tok then
      okWithValue (offset + tok.length) tok
    else error offset [tok] false

/-- Mirrors `codepoint`: skips the next code point if the predicate accepts it. -/
def codepoint (isMatch : Nat → Bool) (expected : List JSString) : Parser Unit :=
  fun input offset =>
    match codePointAt input offset with
    | none => error offset expected false
    | some cp =>
      if isMatch cp then ok (offset + lengthFromCodePoint cp)
      else error offset expected false

/-- The `while (true)` loop of `codepoints`, with fuel: advances over code
points accepted by the predicate and returns the offset reached. -/
def codepointsLoop (isMatch : Nat → Bool) (input : JSString) :
    Nat → Nat → Nat
  | 0, offset => offset
  | fuel + 1, offset =>
    match codePointAt input offset with
    | none => offset
    | some cp =>
      if isMatch cp then codepointsLoop isMatch input fuel (offset + lengthFromCodePoint cp)
      else offset

/-- Mirrors `codepoints`: skips code points while the predicate accepts them;
if an expected list was supplied and nothing was consumed, fails with it. -/
def codepoints (isMatch : Nat → Bool) (expected : Option (List JSString)) : Parser Unit :=
  fun input offset =>
    let final := codepointsLoop isMatch input (input.length + 1) offset
    match expected with
    | some exp => if final = offset then error offset exp false else ok final
    | none => ok final

/-- Mirrors `range`: a single code point from an inclusive interval. -/
def range (firstCodePoint lastCodePoint : Nat) (expected : Option (List JSString)) : Parser Unit :=
  codepoint
    (fun cp => decide (firstCodePoint ≤ cp ∧ cp ≤ lastCodePoint))
    (expected.getD
      [unitsOfCodePoint firstCodePoint ++ [0x2d] ++ unitsOfCodePoint lastCodePoint])

/-- The loop of `skipChars`, by recursion on the number of characters left. -/
def skipLoop (input : JSString) : Nat → Nat → ParseResult Unit
  | 0, offset => ok offset
  | n + 1, offset =>
    match codePointAt input offset with
    | none => error offset [jsOfString "any character"] false
    | some cp => skipLoop input n (offset + lengthFromCodePoint cp)

/-- Mirrors `skipChars`: skips exactly the given number of code points. -/
def skipChars (nCodepoints : Nat) : Parser Unit :=
  fun input offset => skipLoop input nCodepoints offset

/-- Mirrors `map`. -/
def map {T U : Type} (parser : Parser T) (f : T → U) : Parser U :=
  fun input offset =>
    match parser input offset with
    | .failure o e fatal => .failure o e fatal
    | .success o v => okWithValue o (f v)

/-- Mirrors `consume`: applies the parser and discards the value. -/
def consume {T : Type} (parser : Parser T) : Parser Unit :=
  map parser (fun _ => ())

/-- Mirrors `filter`; the source's optional `fatal` argument is explicit. -/
def filter {T : Type} (parser : Parser T) (pred : T → Bool)
    (expected : List JSString) (fatal : Bool) : Parser T :=
  fun input offset =>
    match parser input offset with
    | .failure o e f => .failure o e f
    | .success o v =>
      if pred v then .success o v else error offset expected fatal

/-- The branch loop of `or`, carrying the running last error as an
offset/expected pair (the stored error is never fatal: a fatal branch
returns immediately). -/
def orGo {T : Type} (input : JSString) (offset : Nat) (expected : Option (List JSString)) :
    List (Parser T) → Option (Nat × List JSString) → ParseResult T
  | [], lastError =>
    match lastError with
    | some (lo, le) => .failure lo (expected.getD le) false
    | none => .failure offset (expected.getD []) false
  | parser :: rest, lastError =>
    match parser input offset with
    | .success o v => .success o v
    | .failure o e fatal =>
      let lastError' :=
        match lastError with
        | none => some (o, e)
        | some (lo, le) =>
          if lo < o then some (o, e)
          else if o = lo ∧ expected = none then some (lo, le ++ e)
          else some (lo, le)
      if fatal then .failure o e true
      else orGo input offset expected rest lastError'

/-- Mirrors `or`; the optional override `expected` argument is explicit. -/
def or {T : Type} (parsers : List (Parser T)) (expected : Option (List JSString)) : Parser T :=
  fun input offset => orGo input offset expected parsers none

/-- Mirrors `optional`. -/
def optional {T : Type} (parser : Parser T) : Parser (Option T) :=
  fun input offset =>
    match parser input offset with
    | .success o v => .success o (some v)
    | .failure o e fatal =>
      if fatal then .failure o e fatal else okWithValue offset none

/-- The `while (true)` loop of `star`, with fuel: the accumulated values are
carried in order, each successful value is recorded before the
did-not-advance check. -/
def starLoop {T : Type} (parser : Parser T) (input : JSString) :
    Nat → Nat → List T → ParseResult (List T)
  | 0, nextOffset, _acc => .failure nextOffset [] false
  | fuel + 1, nextOffset, acc =>
    match parser input nextOffset with
    | .failure o e fatal =>
      if fatal then .failure o e true else .success nextOffset acc
    | .success o v =>
      if o = nextOffset then .success nextOffset (acc ++ [v])
      else starLoop parser input fuel o (acc ++ [v])

/-- Mirrors `star`: zero or more matches, collecting values. -/
def star {T : Type} (parser : Parser T) : Parser (List T) :=
  fun input offset => starLoop parser input (input.length + 1) offset []

/-- The `while (true)` loop of `starConsumed`, with fuel. -/
def starConsumedLoop {T : Type} (parser : Parser T) (input : JSString) :
    Nat → Nat → ParseResult Unit
  | 0, nextOffset => .failure nextOffset [] false
  | fuel + 1, nextOffset =>
    match parser input nextOffset with
    | .failure o e fatal =>
      if fatal then .failure o e true else ok nextOffset
    | .success o _ =>
      if o = nextOffset then ok nextOffset
      else starConsumedLoop parser input fuel o

/-- Mirrors `starConsumed`: zero or more matches, discarding values. -/
def starConsumed {T : Type} (parser : Parser T) : Parser Unit :=
  fun input offset => starConsumedLoop parser input (input.length + 1) offset

/-- Mirrors `filterUndefined`: absent entries are modelled as `Option.none`. -/
def filterUndefined {T : Type} (parser : Parser (List (Option T))) : Parser (List T) :=
  map parser (fun vs => vs.filterMap id)

/-- Mirrors `then` (a Lean keyword, hence the suffixed name). -/
def thenP {T1 T2 T : Type} (parser1 : Parser T1) (parser2 : Parser T2)
    (join : T1 → T2 → T) : Parser T :=
  fun input offset =>
    match parser1 input offset with
    | .failure o e fatal => .failure o e fatal
    | .success o1 v1 =>
      match parser2 input o1 with
      | .failure o e fatal => .failure o e fatal
      | .success o2 v2 => okWithValue o2 (join v1 v2)

/-- Mirrors `plus`. -/
def plus {T : Type} (parser : Parser T) : Parser (List T) :=
  thenP parser (star parser) (fun v vs => [v] ++ vs)

/-- Mirrors `first`. -/
def first {T1 T2 : Type} (x : T1) (_y : T2) : T1 := x

/-- Mirrors `second`. -/
def second {T1 T2 : Type} (_x : T1) (y : T2) : T2 := y

/-- Mirrors `plusConsumed`. -/
def plusConsumed {T : Type} (parser : Parser T) : Parser Unit :=
  thenP parser (starConsumed parser) second

/-- Mirrors `preceded`. -/
def preceded {TBefore T : Type} (before : Parser TBefore) (parser : Parser T) : Parser T :=
  thenP before parser second

/-- Mirrors `followed`. -/
def followed {T TAfter : Type} (parser : Parser T) (after : Parser TAfter) : Parser T :=
  thenP parser after first

/-- Mirrors `cut`: forces any failure of the inner parser to be fatal. -/
def cut {T : Type} (parser : Parser T) : Parser T :=
  fun input offset =>
    match parser input offset with
    | .failure o e _ => error o e true
    | .success o v => .success o v

/-- Mirrors `delimited`; the source's optional `cutAfterOpen` defaults to
`false` and is passed explicitly here. -/
def delimited {TOpen T TClose : Type} (openP : Parser TOpen) (inner : Parser T)
    (close : Parser TClose) (cutAfterOpen : Bool) : Parser T :=
  preceded openP
    (if cutAfterOpen then cut (followed inner close) else followed inner close)

/-- Mirrors `recognize`: replaces a successful value by the consumed slice. -/
def recognize {T : Type} (parser : Parser T) : Parser JSString :=
  fun input offset =>
    match parser input offset with
    | .failure o e fatal => .failure o e fatal
    | .success o _ => okWithValue o ((input.drop offset).take (o - offset))

/-- Mirrors `peek`: applies the parser, keeping the value but resetting the
offset on success. -/
def peek {T : Type} (parser : Parser T) : Parser T :=
  fun input offset =>
    match parser input offset with
    | .failure o e fatal => .failure o e fatal
    | .success _ v => okWithValue offset v

/-- Mirrors `not`: succeeds without consuming input iff the parser fails. -/
def not {T : Type} (parser : Parser T) (expected : List JSString) : Parser Unit :=
  fun input offset =>
    match parser input offset with
    | .failure _ _ _ => ok offset
    | .success _ _ => error offset expected false

/-- Mirrors `except`. -/
def except {T U : Type} (match_ : Parser T) (exceptP : Parser U)
    (expected : List JSString) : Parser T :=
  preceded (not exceptP expected) match_

/-- Mirrors `dispatch`; the sparse code-point table is modelled as an
association list, the optional arguments are explicit. -/
def dispatch {T : Type} (mapping : List (Nat × Parser T)) (otherwise : Option (Parser T))
    (extraOffset : Nat) (expected : List JSString) : Parser T :=
  fun input offset =>
    match codePointAt input (offset + extraOffset) with
    | none => error offset expected false
    | some cp =>
      match List.lookup cp mapping with
      | some parser => parser input offset
      | none =>
        match otherwise with
        | some q => q input offset
        | none => error offset expected false

/-- Mirrors `start`. -/
def start : Parser Unit :=
  fun _input offset =>
    if offset = 0 then ok offset else error offset [jsOfString "start of input"] false

/-- Mirrors `end` (a Lean keyword, hence the suffixed name). -/
def endP : Parser Unit :=
  fun input offset =>
    if input.length = offset then ok offset else error offset [jsOfString "end of input"] false

/-- Mirrors `complete`. -/
def complete {T : Type} (parser : Parser T) : Parser T :=
  thenP parser endP first

/-!
The incremental (streaming) variant. A generator that is always driven to
completion is observationally the ordered list of values it yields together
with the final `ParseResult` it returns; the final result's value is ignored
by all consumers, so it is modelled as `ParseResult Unit`.
-/

/-- Mirrors `StreamingParser<T>`: the items yielded in order, and the final
ParseResult returned when iteration is done. -/
abbrev StreamingParser (T : Type) := JSString → Nat → List T × ParseResult Unit

/-- Forgets the value of a ParseResult (the streaming final results have
type `ParseResult<unknown>` and their value is never inspected). -/
def forgetValue {T : Type} : ParseResult T → ParseResult Unit
  | .success o _ => .success o ()
  | .failure o e fatal => .failure o e fatal

/-- Mirrors `streaming`: applies the parser, yielding its value on success. -/
def streaming {T : Type} (parser : Parser T) : StreamingParser T :=
  fun input offset =>
    match parser input offset with
    | .success o v => ([v], .success o ())
    | .failure o e fatal => ([], .failure o e fatal)

/-- Mirrors `streamingThen` (at equal item types): forwards the first
parser's items, then, only on its success, the second parser's items from
the reached offset. -/
def streamingThen {T : Type} (parser1 parser2 : StreamingParser T) : StreamingParser T :=
  fun input offset =>
    match parser1 input offset with
    | (values1, .failure o e fatal) => (values1, .failure o e fatal)
    | (values1, .success o _) =>
      match parser2 input o with
      | (values2, res2) => (values1 ++ values2, res2)

/-- Mirrors `streamingFilterUndefined`: drops the `undefined` (here `none`)
items as they are yielded. -/
def streamingFilterUndefined {T : Type} (parser : StreamingParser (Option T)) :
    StreamingParser T :=
  fun input offset =>
    match parser input offset with
    | (values, res) => (values.filterMap id, res)

/-- The `while (true)` loop of `streamingStar`, with fuel: each iteration is
collected in full, its items are released only after it succeeds. -/
def streamingStarLoop {T : Type} (parser : StreamingParser T) (input : JSString) :
    Nat → Nat → List T → List T × ParseResult Unit
  | 0, offset, acc => (acc, .failure offset [] false)
  | fuel + 1, offset, acc =>
    match parser input offset with
    | (_, .failure o e true) => (acc, .failure o e true)
    | (_, .failure _ _ false) => (acc, ok offset)
    | (values, .success o _) =>
      if offset = o then (acc ++ values, ok offset)
      else streamingStarLoop parser input fuel o (acc ++ values)

/-- Mirrors `streamingStar`. -/
def streamingStar {T : Type} (parser : StreamingParser T) : StreamingParser T :=
  fun input offset => streamingStarLoop parser input (input.length + 1) offset []

/-- Mirrors `streamingOptional`: buffers the inner items and releases them
only if the attempt fully succeeds. -/
def streamingOptional {T : Type} (parser : StreamingParser T) : StreamingParser T :=
  fun input offset =>
    match parser input offset with
    | (_, .failure o e true) => ([], .failure o e true)
    | (_, .failure _ _ false) => ([], ok offset)
    | (values, .success o u) => (values, .success o u)

/-- Mirrors `streamingComplete`: forwards the inner items, then requires end
of input at the reached offset. -/
def streamingComplete {T : Type} (parser : StreamingParser T) : StreamingParser T :=
  fun input offset =>
    match parser input offset with
    | (values, .failure o e fatal) => (values, .failure o e fatal)
    | (values, .success o _) => (values, endP input o)

/-!
The byte-oriented variant's UTF-8 decoding core (`src/utf8.ts`). Byte
inputs are lists of naturals; the undefined-index reads of the source are
modelled with `List.get?`. The decoder can throw (`throw new Error`), which
is modelled as `Except Unit`: `.error ()` is the thrown exception, `.ok
none` is the source's `undefined` ("no code point"), `.ok (some cp)` a
decoded code point. Note the source computes the leading byte as
`input[offset] | 0`, which turns an out-of-range read into the byte 0.
-/

/-- Mirrors `getUtf8Length`. -/
def getUtf8Length (cp : Nat) : Nat :=
  if cp ≤ 0x7f then 1
  else if cp ≤ 0x7ff then 2
  else if cp ≤ 0xffff then 3
  else 4

/-- Mirrors `getUtf8Codepoint`, including the `| 0` coercion of the leading
byte and the early `undefined` returns on missing continuation bytes. -/
def getUtf8Codepoint (input : List Nat) (offset : Nat) : Except Unit (Option Nat) :=
  let cp := (input.get? offset).getD 0
  if cp &&& 0b10000000 = 0 then .ok (some cp)
  else
    match input.get? (offset + 1) with
    | none => .ok none
    | some second =>
      if cp &&& 0b11100000 = 0b11000000 then
        .ok (some (((cp &&& 0b11111) <<< 6) ||| (second &&& 0b111111)))
      else
        match input.get? (offset + 2) with
        | none => .ok none
        | some third =>
          if cp &&& 0b11110000 = 0b11100000 then
            .ok (some (((cp &&& 0b1111) <<< 12) ||| ((second &&& 0b111111) <<< 6) |||
              (third &&& 0b111111)))
          else
            match input.get? (offset + 3) with
            | none => .ok none
            | some fourth =>
              if cp &&& 0b11111000 = 0b11110000 then
                .ok (some (((cp &&& 0b1111) <<< 18) ||| ((second &&& 0b111111) <<< 12) |||
                  ((third &&& 0b111111) <<< 6) ||| (fourth &&& 0b111111)))
              else .error ()

/-- A byte-oriented parser; the result is wrapped in `Except Unit` because
the UTF-8 decoder the primitives call may throw. -/
abbrev ByteParser (T : Type) := List Nat → Nat → Except Unit (ParseResult T)

/-- Mirrors `codepointUtf8`: the `undefined` decode is treated exactly like
a rejected code point, as an ordinary non-fatal failure. -/
def codepointUtf8 (isMatch : Nat → Bool) (expected : List JSString) : ByteParser Unit :=
  fun input offset =>
    (getUtf8Codepoint input offset).map fun cpOpt =>
      match cpOpt with
      | none => error offset expected false
      | some cp =>
        if isMatch cp then ok (offset + getUtf8Length cp)
        else error offset expected false

end Prsc

/-!
Specification layer: the invariants and aggregation policies the design
document states, and the theorems settling them against the embedding.
-/

/-- One step of the specified aggregation policy of `or`: a failure at a
strictly greater offset replaces the running failure, a failure at an equal
offset has its expected list concatenated onto the running failure's,
unless an override expected list was supplied to `or`. -/
def specAggStep (override : Option (List Prsc.JSString))
    (acc : Option (Nat × List Prsc.JSString)) (f : Nat × List Prsc.JSString) :
    Option (Nat × List Prsc.JSString) :=
  match acc with
  | none => some f
  | some (lo, le) =>
    if lo < f.1 then some f
    else if f.1 = lo ∧ override = none then some (lo, le ++ f.2)
    else some (lo, le)

/-- Follows the specified aggregation policy of `or` on an all-branches-fail
run: the running failure keeps the greatest offset seen; at the end an
override expected list supplied to `or` replaces the aggregated one; with
no branches at all the failure is at the starting offset with an empty (or
overridden) expected list. -/
def specAggregateFailure (startOffset : Nat) (override : Option (List Prsc.JSString))
    (failures : List (Nat × List Prsc.JSString)) : Nat × List Prsc.JSString :=
  match failures.foldl (specAggStep override) none with
  | none => (startOffset, override.getD [])
  | some (lo, le) => (lo, override.getD le)

lemma orGo_eq_specAggregate {T : Type} (input : Prsc.JSString) (offset : Nat)
    (expected : Option (List Prsc.JSString)) :
    ∀ (parsers : List (Prsc.Parser T)) (failures : List (Nat × List Prsc.JSString))
      (acc : Option (Nat × List Prsc.JSString)),
      List.Forall₂
        (fun p f => p input offset = Prsc.ParseResult.failure f.1 f.2 false)
        parsers failures →
      Prsc.orGo input offset expected parsers acc =
        match failures.foldl (specAggStep expected) acc with
        | none => Prsc.ParseResult.failure offset (expected.getD []) false
        | some (lo, le) => Prsc.ParseResult.failure lo (expected.getD le) false := by
  intro parsers failures acc h
  induction h generalizing acc with
  | nil =>
    cases acc with
    | none => rfl
    | some le => rfl
  | cons hpf _hrest ih =>
    rename_i p f ps fs
    simp only [Prsc.orGo, hpf, List.foldl_cons]
    rw [if_neg Bool.false_ne_true]
    exact ih (specAggStep expected acc f)

/-- C1: when every branch of `or` fails non-fatally, `or` returns the single
aggregate failure described by the spec's furthest-offset policy: greatest
offset wins, strictly greater offsets replace, equal offsets concatenate the
expected lists unless an override expected list was supplied to `or` (which
is then carried instead), and with zero parsers the failure is at the
starting offset with an empty (or overridden) expected list. -/
theorem or_aggregates_furthest_failure {T : Type} (parsers : List (Prsc.Parser T))
    (failures : List (Nat × List Prsc.JSString)) (expected : Option (List Prsc.JSString))
    (input : Prsc.JSString) (offset : Nat)
    (h : List.Forall₂
      (fun p f => p input offset = Prsc.ParseResult.failure f.1 f.2 false)
      parsers failures) :
    Prsc.or parsers expected input offset =
      Prsc.ParseResult.failure (specAggregateFailure offset expected failures).1
        (specAggregateFailure offset expected failures).2 false := by
  rw [Prsc.or, orGo_eq_specAggregate input offset expected parsers failures none h,
    specAggregateFailure]
  cases hf : List.foldl (specAggStep expected) none failures with
  | none => simp [hf]
  | some le => cases le with | mk lo le => simp [hf]

/-- Witness for C1: `or` over two parsers that both fail at offset 0 on input
"c" concatenates their expected lists. -/
theorem or_aggregates_furthest_failure_witness :
    Prsc.or [Prsc.token [97], Prsc.token [98]] none [99] 0 =
      Prsc.ParseResult.failure 0 [[97], [98]] false := by
  have h := or_aggregates_furthest_failure
    [Prsc.token [97], Prsc.token [98]] [(0, [[97]]), (0, [[98]])] none [99] 0
    (by constructor
        · rfl
        · constructor
          · rfl
          · constructor)
  simpa [specAggregateFailure] using h

lemma orGo_fatal_stops {T : Type} (input : Prsc.JSString) (offset : Nat)
    (expected : Option (List Prsc.JSString)) (p : Prsc.Parser T)
    (rest : List (Prsc.Parser T)) (o : Nat) (e : List Prsc.JSString)
    (hp : p input offset = Prsc.ParseResult.failure o e true) :
    ∀ (ps : List (Prsc.Parser T)) (acc : Option (Nat × List Prsc.JSString)),
      (∀ q ∈ ps, ∃ o' e', q input offset = Prsc.ParseResult.failure o' e' false) →
      Prsc.orGo input offset expected (ps ++ p :: rest) acc =
        Prsc.ParseResult.failure o e true := by
  intro ps
  induction ps with
  | nil =>
    intro acc _
    simp [List.nil_append, Prsc.orGo, hp]
  | cons q qs ih =>
    intro acc hqs
    obtain ⟨o', e', hq⟩ := hqs q (List.mem_cons_self q qs)
    simp only [List.cons_append, Prsc.orGo, hq]
    rw [if_neg Bool.false_ne_true]
    exact ih _ (fun r hr => hqs r (List.mem_cons_of_mem q hr))

/-- C2: if a branch of `or` fails fatally and every earlier branch failed
non-fatally, `or` returns that fatal failure as-is, and the result does not
depend on the branches listed after it (they are never attempted). -/
theorem or_stops_on_fatal {T : Type} (before after : List (Prsc.Parser T))
    (p : Prsc.Parser T) (expected : Option (List Prsc.JSString)) (input : Prsc.JSString)
    (offset o : Nat) (e : List Prsc.JSString)
    (hbefore : ∀ q ∈ before, ∃ o' e', q input offset = Prsc.ParseResult.failure o' e' false)
    (hp : p input offset = Prsc.ParseResult.failure o e true) :
    Prsc.or (before ++ p :: after) expected input offset =
      Prsc.ParseResult.failure o e true := by
  rw [Prsc.or]
  exact orGo_fatal_stops input offset expected p after o e hp before none hbefore

/-- Witness for C2: `or([cut(token "a")), token "b"])` on "c" returns the cut
branch's failure made fatal; the second branch is irrelevant. -/
theorem or_stops_on_fatal_witness :
    Prsc.or [Prsc.cut (Prsc.token [97]), Prsc.token [98]] none [99] 0 =
      Prsc.ParseResult.failure 0 [[97]] true :=
  or_stops_on_fatal [] [Prsc.token [98]] (Prsc.cut (Prsc.token [97])) none [99] 0 0 [[97]]
    (fun q hq => absurd hq (List.not_mem_nil q))
    rfl

/-- C10: `token("")` succeeds at every offset (even past the end of the
input) with the empty string as value, consuming nothing. -/
theorem token_empty_always_succeeds (input : Prsc.JSString) (offset : Nat) :
    Prsc.token [] input offset = Prsc.ParseResult.success offset [] := by
  simp [Prsc.token, Prsc.okWithValue]

/-- Counterexample to C6 as stated: when the inner parser itself fails,
`complete` returns that failure unchanged, whose expected list is the
token's, not the claimed "end of input" expectation. -/
theorem complete_counterexample :
    Prsc.complete (Prsc.token [97]) [98] 0 =
      Prsc.ParseResult.failure 0 [[97]] false ∧
    ([[97]] : List Prsc.JSString) ≠ [Prsc.jsOfString "end of input"] := by
  constructor
  · rfl
  · decide

lemma complete_eq {T : Type} (p : Prsc.Parser T) (input : Prsc.JSString) (offset : Nat) :
    Prsc.complete p input offset =
      match p input offset with
      | .success o v =>
        if input.length = o then Prsc.ParseResult.success o v
        else Prsc.ParseResult.failure o [Prsc.jsOfString "end of input"] false
      | .failure o e fatal => Prsc.ParseResult.failure o e fatal := by
  cases hp : p input offset with
  | success o v =>
    by_cases hlen : input.length = o
    · simp [Prsc.complete, Prsc.thenP, hp, Prsc.endP, hlen, Prsc.ok, Prsc.okWithValue,
        Prsc.first]
    · simp [Prsc.complete, Prsc.thenP, hp, Prsc.endP, hlen, Prsc.error]
  | failure o e fatal =>
    simp [Prsc.complete, Prsc.thenP, hp]

/-- C6 (amended): `complete(p)` succeeds iff `p` succeeds with its resulting
offset equal to the input length, and then returns `p`'s result; if `p`
succeeds at any other offset, `complete(p)` fails with an "end of input"
expectation at `p`'s resulting offset; if `p` itself fails, its failure is
returned unchanged. -/
theorem complete_requires_end :
    (∀ {T : Type} (p : Prsc.Parser T) (input : Prsc.JSString) (offset : Nat),
      Prsc.complete p input offset =
        match p input offset with
        | .success o v =>
          if input.length = o then Prsc.ParseResult.success o v
          else Prsc.ParseResult.failure o [Prsc.jsOfString "end of input"] false
        | .failure o e fatal => Prsc.ParseResult.failure o e fatal)
    ∧ (∀ {T : Type} (p : Prsc.Parser T) (input : Prsc.JSString) (offset o : Nat) (v : T),
      Prsc.complete p input offset = Prsc.ParseResult.success o v ↔
        p input offset = Prsc.ParseResult.success o v ∧ o = input.length) := by
  constructor
  · intro T p input offset
    exact complete_eq p input offset
  · intro T p input offset o v
    rw [complete_eq]
    cases hp : p input offset with
    | success o1 v1 =>
      by_cases hlen : input.length = o1
      · simp only [hlen, if_pos]
        constructor
        · intro h2
          injection h2 with ho hv
          subst ho
          subst hv
          exact ⟨rfl, rfl⟩
        · rintro ⟨h2, _⟩
          exact h2
      · simp only [if_neg hlen]
        constructor
        · intro h2
          simp at h2
        · rintro ⟨h2, rfl⟩
          injection h2 with ho _hv
          exact absurd ho.symm hlen
    | failure o1 e1 fatal1 =>
      constructor
      · intro h2
        simp at h2
      · rintro ⟨h2, _⟩
        simp at h2

/-!
Offset invariants. `Mono` is the spec's no-backward-movement property for
successes; `Bounded` is the spec's offsets-stay-in-range property, stated
for well-formed inputs (UTF-16 code units are below 2^16).
-/

/-- A well-formed JavaScript string: every code unit is below 2^16. -/
def ValidInput (input : Prsc.JSString) : Prop := ∀ u ∈ input, u < 65536

/-- Successful outcomes never move the offset backward. -/
def Mono {T : Type} (p : Prsc.Parser T) : Prop :=
  ∀ input offset o v, p input offset = Prsc.ParseResult.success o v → offset ≤ o

/-- On well-formed inputs, the returned offset never exceeds the larger of
the starting offset and the input length. -/
def Bounded {T : Type} (p : Prsc.Parser T) : Prop :=
  ∀ input, ValidInput input → ∀ offset,
    (p input offset).offset ≤ max offset input.length

lemma codePointAt_lt_length {input : Prsc.JSString} {offset cp : Nat}
    (h : Prsc.codePointAt input offset = some cp) : offset < input.length := by
  unfold Prsc.codePointAt at h
  cases hg : input.get? offset with
  | none => rw [hg] at h; simp at h
  | some c1 => exact List.get?_eq_some.mp hg |>.1

lemma codePointAt_advance_le {input : Prsc.JSString} {offset cp : Nat}
    (hv : ValidInput input) (h : Prsc.codePointAt input offset = some cp) :
    offset + Prsc.lengthFromCodePoint cp ≤ input.length := by
  unfold Prsc.codePointAt at h
  cases hg : input.get? offset with
  | none => rw [hg] at h; simp at h
  | some c1 =>
    have hofs : offset < input.length := List.get?_eq_some.mp hg |>.1
    have hc1 : c1 < 65536 := hv c1 (List.get?_mem hg)
    rw [hg] at h
    simp only at h
    split at h
    · cases hg2 : input.get? (offset + 1) with
      | none =>
        rw [hg2] at h
        simp only at h
        injection h with hcc
        subst hcc
        have hne : ¬ (c1 > 0xffff) := by omega
        simp [Prsc.lengthFromCodePoint, hne]
        omega
      | some c2 =>
        rw [hg2] at h
        simp only at h
        have hofs2 : offset + 1 < input.length := List.get?_eq_some.mp hg2 |>.1
        split at h
        · injection h with hcc
          subst hcc
          have hgt : (c1 - 0xd800) * 0x400 + (c2 - 0xdc00) + 0x10000 > 0xffff := by omega
          simp [Prsc.lengthFromCodePoint, hgt]
          omega
        · injection h with hcc
          subst hcc
          have hne : ¬ (c1 > 0xffff) := by omega
          simp [Prsc.lengthFromCodePoint, hne]
          omega
    · injection h with hcc
      subst hcc
      have hne : ¬ (c1 > 0xffff) := by omega
      simp [Prsc.lengthFromCodePoint, hne]
      omega

lemma mono_token (tok : Prsc.JSString) : Mono (Prsc.token tok) := by
  intro input offset o v h
  unfold Prsc.token at h
  split at h
  · cases h
    omega
  · simp [Prsc.error] at h

lemma mono_codepoint (isMatch : Nat → Bool) (expected : List Prsc.JSString) :
    Mono (Prsc.codepoint isMatch expected) := by
  intro input offset o v h
  unfold Prsc.codepoint at h
  cases hcp : Prsc.codePointAt input offset with
  | none => rw [hcp] at h; simp [Prsc.error] at h
  | some cp =>
    rw [hcp] at h
    simp only at h
    split at h
    · cases h
      omega
    · simp [Prsc.error] at h

lemma codepointsLoop_ge (isMatch : Nat → Bool) (input : Prsc.JSString) :
    ∀ fuel offset, offset ≤ Prsc.codepointsLoop isMatch input fuel offset := by
  intro fuel
  induction fuel with
  | zero => intro offset; exact Nat.le_refl offset
  | succ f ih =>
    intro offset
    unfold Prsc.codepointsLoop
    cases hcp : Prsc.codePointAt input offset with
    | none => exact Nat.le_refl offset
    | some cp =>
      simp only
      split
      · calc offset ≤ offset + Prsc.lengthFromCodePoint cp := Nat.le_add_right _ _
          _ ≤ _ := ih (offset + Prsc.lengthFromCodePoint cp)
      · exact Nat.le_refl offset

lemma mono_codepoints (isMatch : Nat → Bool) (expected : Option (List Prsc.JSString)) :
    Mono (Prsc.codepoints isMatch expected) := by
  intro input offset o v h
  unfold Prsc.codepoints at h
  cases expected with
  | none =>
    simp only [Prsc.ok, Prsc.okWithValue] at h
    cases h
    exact codepointsLoop_ge isMatch input _ offset
  | some exp =>
    simp only at h
    split at h
    · simp [Prsc.error] at h
    · simp only [Prsc.ok, Prsc.okWithValue] at h
      cases h
      exact codepointsLoop_ge isMatch input _ offset

lemma skipLoop_mono (input : Prsc.JSString) :
    ∀ n offset o v, Prsc.skipLoop input n offset = Prsc.ParseResult.success o v →
      offset ≤ o := by
  intro n
  induction n with
  | zero =>
    intro offset o v h
    cases h
    exact Nat.le_refl offset
  | succ k ih =>
    intro offset o v h
    unfold Prsc.skipLoop at h
    cases hcp : Prsc.codePointAt input offset with
    | none => rw [hcp] at h; simp [Prsc.error] at h
    | some cp =>
      rw [hcp] at h
      have := ih (offset + Prsc.lengthFromCodePoint cp) o v h
      omega

lemma mono_skipChars (n : Nat) : Mono (Prsc.skipChars n) := by
  intro input offset o v h
  exact skipLoop_mono input n offset o v h

lemma mono_map {A B : Type} {p : Prsc.Parser A} (f : A → B) (hp : Mono p) :
    Mono (Prsc.map p f) := by
  intro input offset o v h
  unfold Prsc.map at h
  cases hres : p input offset with
  | failure o1 e1 f1 => rw [hres] at h; simp at h
  | success o1 v1 =>
    rw [hres] at h
    simp [Prsc.okWithValue] at h
    obtain ⟨rfl, -⟩ := h
    exact hp input offset o1 v1 hres

lemma mono_consume {A : Type} {p : Prsc.Parser A} (hp : Mono p) :
    Mono (Prsc.consume p) :=
  mono_map _ hp

lemma mono_filter {A : Type} {p : Prsc.Parser A} (pred : A → Bool)
    (expected : List Prsc.JSString) (fatal : Bool) (hp : Mono p) :
    Mono (Prsc.filter p pred expected fatal) := by
  intro input offset o v h
  unfold Prsc.filter at h
  cases hres : p input offset with
  | failure o1 e1 f1 => rw [hres] at h; simp at h
  | success o1 v1 =>
    rw [hres] at h
    simp only at h
    split at h
    · cases h
      exact hp input offset o v hres
    · simp [Prsc.error] at h

lemma mono_thenP {A B C : Type} {p1 : Prsc.Parser A} {p2 : Prsc.Parser B}
    (join : A → B → C) (h1 : Mono p1) (h2 : Mono p2) :
    Mono (Prsc.thenP p1 p2 join) := by
  intro input offset o v h
  unfold Prsc.thenP at h
  cases hr1 : p1 input offset with
  | failure o1 e1 f1 => rw [hr1] at h; simp at h
  | success o1 v1 =>
    rw [hr1] at h
    simp only at h
    cases hr2 : p2 input o1 with
    | failure o2 e2 f2 => rw [hr2] at h; simp at h
    | success o2 v2 =>
      rw [hr2] at h
      simp [Prsc.okWithValue] at h
      obtain ⟨rfl, -⟩ := h
      calc offset ≤ o1 := h1 input offset o1 v1 hr1
        _ ≤ o2 := h2 input o1 o2 v2 hr2

lemma mono_orGo {T : Type} (input : Prsc.JSString) (offset : Nat)
    (expected : Option (List Prsc.JSString)) :
    ∀ (ps : List (Prsc.Parser T)) (acc : Option (Nat × List Prsc.JSString)),
      (∀ p ∈ ps, Mono p) →
      ∀ o v, Prsc.orGo input offset expected ps acc = Prsc.ParseResult.success o v →
        offset ≤ o := by
  intro ps
  induction ps with
  | nil =>
    intro acc _ o v h
    unfold Prsc.orGo at h
    cases acc with
    | none => simp at h
    | some le => cases le with | mk lo le => simp at h
  | cons q qs ih =>
    intro acc hm o v h
    unfold Prsc.orGo at h
    cases hq : q input offset with
    | success o1 v1 =>
      rw [hq] at h
      cases h
      exact hm q (List.mem_cons_self q qs) input offset o v hq
    | failure o1 e1 f1 =>
      rw [hq] at h
      simp only at h
      split at h
      · simp at h
      · exact ih _ (fun r hr => hm r (List.mem_cons_of_mem q hr)) o v h

lemma mono_or {T : Type} {ps : List (Prsc.Parser T)}
    (expected : Option (List Prsc.JSString)) (hm : ∀ p ∈ ps, Mono p) :
    Mono (Prsc.or ps expected) := by
  intro input offset o v h
  exact mono_orGo input offset expected ps none hm o v h

lemma mono_optional {A : Type} {p : Prsc.Parser A} (hp : Mono p) :
    Mono (Prsc.optional p) := by
  intro input offset o v h
  unfold Prsc.optional at h
  cases hres : p input offset with
  | success o1 v1 =>
    rw [hres] at h
    simp only at h
    injection h with ho _hv
    subst ho
    exact hp input offset o1 v1 hres
  | failure o1 e1 f1 =>
    rw [hres] at h
    simp only at h
    split at h
    · simp at h
    · cases h
      exact Nat.le_refl offset

lemma starLoop_mono {T : Type} {p : Prsc.Parser T} (input : Prsc.JSString)
    (hp : Mono p) :
    ∀ fuel nextOffset acc o vs,
      Prsc.starLoop p input fuel nextOffset acc = Prsc.ParseResult.success o vs →
      nextOffset ≤ o := by
  intro fuel
  induction fuel with
  | zero =>
    intro nextOffset acc o vs h
    simp [Prsc.starLoop] at h
  | succ f ih =>
    intro nextOffset acc o vs h
    unfold Prsc.starLoop at h
    cases hres : p input nextOffset with
    | failure o1 e1 f1 =>
      rw [hres] at h
      simp only at h
      split at h
      · simp at h
      · cases h
        exact Nat.le_refl nextOffset
    | success o1 v1 =>
      rw [hres] at h
      simp only at h
      split at h
      · cases h
        exact Nat.le_refl nextOffset
      · calc nextOffset ≤ o1 := hp input nextOffset o1 v1 hres
          _ ≤ o := ih o1 _ o vs h

lemma mono_star {A : Type} {p : Prsc.Parser A} (hp : Mono p) :
    Mono (Prsc.star p) := by
  intro input offset o v h
  exact starLoop_mono input hp _ offset [] o v h

lemma starConsumedLoop_mono {T : Type} {p : Prsc.Parser T} (input : Prsc.JSString)
    (hp : Mono p) :
    ∀ fuel nextOffset o vs,
      Prsc.starConsumedLoop p input fuel nextOffset = Prsc.ParseResult.success o vs →
      nextOffset ≤ o := by
  intro fuel
  induction fuel with
  | zero =>
    intro nextOffset o vs h
    simp [Prsc.starConsumedLoop] at h
  | succ f ih =>
    intro nextOffset o vs h
    unfold Prsc.starConsumedLoop at h
    cases hres : p input nextOffset with
    | failure o1 e1 f1 =>
      rw [hres] at h
      simp only at h
      split at h
      · simp at h
      · cases h
        exact Nat.le_refl nextOffset
    | success o1 v1 =>
      rw [hres] at h
      simp only at h
      split at h
      · cases h
        exact Nat.le_refl nextOffset
      · calc nextOffset ≤ o1 := hp input nextOffset o1 v1 hres
          _ ≤ o := ih o1 o vs h

lemma mono_starConsumed {A : Type} {p : Prsc.Parser A} (hp : Mono p) :
    Mono (Prsc.starConsumed p) := by
  intro input offset o v h
  exact starConsumedLoop_mono input hp _ offset o v h

lemma mono_cut {A : Type} {p : Prsc.Parser A} (hp : Mono p) : Mono (Prsc.cut p) := by
  intro input offset o v h
  unfold Prsc.cut at h
  cases hres : p input offset with
  | failure o1 e1 f1 => rw [hres] at h; simp [Prsc.error] at h
  | success o1 v1 =>
    rw [hres] at h
    cases h
    exact hp input offset o v hres

lemma mono_recognize {A : Type} {p : Prsc.Parser A} (hp : Mono p) :
    Mono (Prsc.recognize p) := by
  intro input offset o v h
  unfold Prsc.recognize at h
  cases hres : p input offset with
  | failure o1 e1 f1 => rw [hres] at h; simp at h
  | success o1 v1 =>
    rw [hres] at h
    simp [Prsc.okWithValue] at h
    obtain ⟨rfl, -⟩ := h
    exact hp input offset o1 v1 hres

lemma mono_peek {A : Type} (p : Prsc.Parser A) : Mono (Prsc.peek p) := by
  intro input offset o v h
  unfold Prsc.peek at h
  cases hres : p input offset with
  | failure o1 e1 f1 => rw [hres] at h; simp at h
  | success o1 v1 =>
    rw [hres] at h
    simp [Prsc.okWithValue] at h
    obtain ⟨rfl, -⟩ := h
    exact Nat.le_refl offset

lemma mono_not {A : Type} (p : Prsc.Parser A) (expected : List Prsc.JSString) :
    Mono (Prsc.not p expected) := by
  intro input offset o v h
  unfold Prsc.not at h
  cases hres : p input offset with
  | failure o1 e1 f1 =>
    rw [hres] at h
    cases h
    exact Nat.le_refl offset
  | success o1 v1 =>
    rw [hres] at h
    simp [Prsc.error] at h

lemma mem_of_lookup_eq_some {A : Type} {cp : Nat} {q : A} :
    ∀ {mapping : List (Nat × A)}, List.lookup cp mapping = some q → (cp, q) ∈ mapping := by
  intro mapping
  induction mapping with
  | nil => intro h; simp [List.lookup] at h
  | cons kv rest ih =>
    intro h
    cases kv with
    | mk k v =>
      unfold List.lookup at h
      cases hbeq : (cp == k) with
      | true =>
        rw [hbeq] at h
        simp only at h
        injection h with hvq
        subst hvq
        have hk : cp = k := by
          have := hbeq
          simp at this
          exact this
        subst hk
        exact List.mem_cons_self _ _
      | false =>
        rw [hbeq] at h
        simp only at h
        exact List.mem_cons_of_mem _ (ih h)

lemma mono_dispatch {A : Type} {mapping : List (Nat × Prsc.Parser A)}
    {otherwise : Option (Prsc.Parser A)} (extraOffset : Nat) (expected : List Prsc.JSString)
    (hmm : ∀ c ∈ mapping, Mono c.2) (ho : ∀ q, otherwise = some q → Mono q) :
    Mono (Prsc.dispatch mapping otherwise extraOffset expected) := by
  intro input offset o v h
  unfold Prsc.dispatch at h
  cases hcp : Prsc.codePointAt input (offset + extraOffset) with
  | none => rw [hcp] at h; simp [Prsc.error] at h
  | some cp =>
    rw [hcp] at h
    simp only at h
    cases hl : List.lookup cp mapping with
    | some q =>
      rw [hl] at h
      exact hmm (cp, q) (mem_of_lookup_eq_some hl) input offset o v h
    | none =>
      rw [hl] at h
      cases hother : otherwise with
      | some q =>
        rw [hother] at h
        exact ho q hother input offset o v h
      | none =>
        rw [hother] at h
        simp [Prsc.error] at h

lemma mono_start : Mono Prsc.start := by
  intro input offset o v h
  unfold Prsc.start at h
  split at h
  · cases h
    exact Nat.le_refl offset
  · simp [Prsc.error] at h

lemma mono_endP : Mono Prsc.endP := by
  intro input offset o v h
  unfold Prsc.endP at h
  split at h
  · cases h
    exact Nat.le_refl offset
  · simp [Prsc.error] at h

lemma mono_range (a b : Nat) (expected : Option (List Prsc.JSString)) :
    Mono (Prsc.range a b expected) :=
  mono_codepoint _ _

lemma mono_filterUndefined {A : Type} {p : Prsc.Parser (List (Option A))} (hp : Mono p) :
    Mono (Prsc.filterUndefined p) :=
  mono_map _ hp

lemma mono_plus {A : Type} {p : Prsc.Parser A} (hp : Mono p) : Mono (Prsc.plus p) :=
  mono_thenP _ hp (mono_star hp)

lemma mono_plusConsumed {A : Type} {p : Prsc.Parser A} (hp : Mono p) :
    Mono (Prsc.plusConsumed p) :=
  mono_thenP _ hp (mono_starConsumed hp)

lemma mono_preceded {A B : Type} {p1 : Prsc.Parser A} {p2 : Prsc.Parser B}
    (h1 : Mono p1) (h2 : Mono p2) : Mono (Prsc.preceded p1 p2) :=
  mono_thenP _ h1 h2

lemma mono_followed {A B : Type} {p1 : Prsc.Parser A} {p2 : Prsc.Parser B}
    (h1 : Mono p1) (h2 : Mono p2) : Mono (Prsc.followed p1 p2) :=
  mono_thenP _ h1 h2

lemma mono_delimited {A B C : Type} {p1 : Prsc.Parser A} {p2 : Prsc.Parser B}
    {p3 : Prsc.Parser C} (cutAfterOpen : Bool)
    (h1 : Mono p1) (h2 : Mono p2) (h3 : Mono p3) :
    Mono (Prsc.delimited p1 p2 p3 cutAfterOpen) := by
  unfold Prsc.delimited
  cases cutAfterOpen with
  | true => exact mono_preceded h1 (mono_cut (mono_followed h2 h3))
  | false => exact mono_preceded h1 (mono_followed h2 h3)

lemma mono_except {A B : Type} {p : Prsc.Parser A} {q : Prsc.Parser B}
    (expected : List Prsc.JSString) (hp : Mono p) : Mono (Prsc.except p q expected) :=
  mono_preceded (mono_not q expected) hp

lemma mono_complete {A : Type} {p : Prsc.Parser A} (hp : Mono p) :
    Mono (Prsc.complete p) :=
  mono_thenP _ hp mono_endP

/-!
Bounded lemmas: on a well-formed input, every combinator keeps the
reported offset at or below `max offset input.length`.
-/

lemma bounded_token (tok : Prsc.JSString) : Bounded (Prsc.token tok) := by
  intro input _hv offset
  unfold Prsc.token
  split
  next htake =>
    have hlen : tok.length ≤ input.length - offset := by
      have hcong := congrArg List.length htake
      simp only [List.length_take, List.length_drop] at hcong
      omega
    simp only [Prsc.okWithValue, Prsc.ParseResult.offset]
    omega
  next =>
    simp only [Prsc.error, Prsc.ParseResult.offset]
    omega

lemma bounded_codepoint (isMatch : Nat → Bool) (expected : List Prsc.JSString) :
    Bounded (Prsc.codepoint isMatch expected) := by
  intro input hv offset
  unfold Prsc.codepoint
  cases hcp : Prsc.codePointAt input offset with
  | none => simp only [Prsc.error, Prsc.ParseResult.offset]; omega
  | some cp =>
    simp only
    split
    · have := codePointAt_advance_le hv hcp
      simp only [Prsc.ok, Prsc.okWithValue, Prsc.ParseResult.offset]
      omega
    · simp only [Prsc.error, Prsc.ParseResult.offset]; omega

lemma codepointsLoop_le (isMatch : Nat → Bool) {input : Prsc.JSString}
    (hv : ValidInput input) :
    ∀ fuel offset, Prsc.codepointsLoop isMatch input fuel offset ≤ max offset input.length := by
  intro fuel
  induction fuel with
  | zero => intro offset; simp [Prsc.codepointsLoop]
  | succ f ih =>
    intro offset
    unfold Prsc.codepointsLoop
    cases hcp : Prsc.codePointAt input offset with
    | none => simp
    | some cp =>
      simp only
      split
      · have hadv := codePointAt_advance_le hv hcp
        have := ih (offset + Prsc.lengthFromCodePoint cp)
        omega
      · simp

lemma bounded_codepoints (isMatch : Nat → Bool) (expected : Option (List Prsc.JSString)) :
    Bounded (Prsc.codepoints isMatch expected) := by
  intro input hv offset
  unfold Prsc.codepoints
  have hle := codepointsLoop_le isMatch hv (input.length + 1) offset
  cases expected with
  | none => simpa [Prsc.ok, Prsc.okWithValue, Prsc.ParseResult.offset] using hle
  | some exp =>
    simp only
    split
    · simp [Prsc.error, Prsc.ParseResult.offset]
    · simpa [Prsc.ok, Prsc.okWithValue, Prsc.ParseResult.offset] using hle

lemma skipLoop_bounded {input : Prsc.JSString} (hv : ValidInput input) :
    ∀ n offset, (Prsc.skipLoop input n offset).offset ≤ max offset input.length := by
  intro n
  induction n with
  | zero => intro offset; simp [Prsc.skipLoop, Prsc.ok, Prsc.okWithValue, Prsc.ParseResult.offset]
  | succ k ih =>
    intro offset
    unfold Prsc.skipLoop
    cases hcp : Prsc.codePointAt input offset with
    | none => simp [Prsc.error, Prsc.ParseResult.offset]
    | some cp =>
      simp only
      have hadv := codePointAt_advance_le hv hcp
      have := ih (offset + Prsc.lengthFromCodePoint cp)
      omega

lemma bounded_skipChars (n : Nat) : Bounded (Prsc.skipChars n) := by
  intro input hv offset
  exact skipLoop_bounded hv n offset

lemma bounded_map {A B : Type} {p : Prsc.Parser A} (f : A → B) (hp : Bounded p) :
    Bounded (Prsc.map p f) := by
  intro input hv offset
  have := hp input hv offset
  unfold Prsc.map
  cases hres : p input offset with
  | failure o e ft => rw [hres] at this; simpa [Prsc.ParseResult.offset] using this
  | success o v =>
    rw [hres] at this
    simpa [Prsc.okWithValue, Prsc.ParseResult.offset] using this

lemma bounded_consume {A : Type} {p : Prsc.Parser A} (hp : Bounded p) :
    Bounded (Prsc.consume p) :=
  bounded_map _ hp

lemma bounded_filter {A : Type} {p : Prsc.Parser A} (pred : A → Bool)
    (expected : List Prsc.JSString) (fatal : Bool) (hp : Bounded p) :
    Bounded (Prsc.filter p pred expected fatal) := by
  intro input hv offset
  have := hp input hv offset
  unfold Prsc.filter
  cases hres : p input offset with
  | failure o e ft => rw [hres] at this; simpa [Prsc.ParseResult.offset] using this
  | success o v =>
    rw [hres] at this
    simp only
    split
    · simpa [Prsc.ParseResult.offset] using this
    · simp [Prsc.error, Prsc.ParseResult.offset]

lemma bounded_thenP {A B C : Type} {p1 : Prsc.Parser A} {p2 : Prsc.Parser B}
    (join : A → B → C) (h1 : Bounded p1) (h2 : Bounded p2) :
    Bounded (Prsc.thenP p1 p2 join) := by
  intro input hv offset
  have hb1 := h1 input hv offset
  unfold Prsc.thenP
  cases hr1 : p1 input offset with
  | failure o e ft => rw [hr1] at hb1; simpa [Prsc.ParseResult.offset] using hb1
  | success o1 v1 =>
    rw [hr1] at hb1
    simp only [Prsc.ParseResult.offset] at hb1
    have hb2 := h2 input hv o1
    simp only
    cases hr2 : p2 input o1 with
    | failure o e ft =>
      rw [hr2] at hb2
      simp only [Prsc.ParseResult.offset] at hb2
      simp [Prsc.ParseResult.offset]
      omega
    | success o2 v2 =>
      rw [hr2] at hb2
      simp only [Prsc.ParseResult.offset] at hb2
      simp [Prsc.okWithValue, Prsc.ParseResult.offset]
      omega

lemma bounded_orGo {T : Type} (input : Prsc.JSString) (hv : ValidInput input) (offset : Nat)
    (expected : Option (List Prsc.JSString)) :
    ∀ (ps : List (Prsc.Parser T)) (acc : Option (Nat × List Prsc.JSString)),
      (∀ p ∈ ps, Bounded p) →
      (∀ lo le, acc = some (lo, le) → lo ≤ max offset input.length) →
      (Prsc.orGo input offset expected ps acc).offset ≤ max offset input.length := by
  intro ps
  induction ps with
  | nil =>
    intro acc _ hacc
    unfold Prsc.orGo
    cases acc with
    | none => simp [Prsc.ParseResult.offset]
    | some le =>
      cases le with
      | mk lo le =>
        simp only [Prsc.ParseResult.offset]
        exact hacc lo le rfl
  | cons q qs ih =>
    intro acc hb hacc
    unfold Prsc.orGo
    have hq := hb q (List.mem_cons_self q qs) input hv offset
    cases hres : q input offset with
    | success o v =>
      rw [hres] at hq
      simpa [Prsc.ParseResult.offset] using hq
    | failure o e ft =>
      rw [hres] at hq
      simp only [Prsc.ParseResult.offset] at hq
      simp only
      split
      · simpa [Prsc.ParseResult.offset] using hq
      · refine ih _ (fun r hr => hb r (List.mem_cons_of_mem q hr)) ?_
        intro lo le hacc'
        cases acc with
        | none =>
          simp at hacc'
          omega
        | some a =>
          cases a with
          | mk lo0 le0 =>
            have h0 := hacc lo0 le0 rfl
            simp only at hacc'
            split at hacc'
            · simp at hacc'
              omega
            · split at hacc'
              · simp at hacc'
                omega
              · simp at hacc'
                omega

lemma bounded_or {T : Type} {ps : List (Prsc.Parser T)}
    (expected : Option (List Prsc.JSString)) (hb : ∀ p ∈ ps, Bounded p) :
    Bounded (Prsc.or ps expected) := by
  intro input hv offset
  exact bounded_orGo input hv offset expected ps none hb (fun lo le h => by simp at h)

lemma bounded_optional {A : Type} {p : Prsc.Parser A} (hp : Bounded p) :
    Bounded (Prsc.optional p) := by
  intro input hv offset
  have := hp input hv offset
  unfold Prsc.optional
  cases hres : p input offset with
  | success o v => rw [hres] at this; simpa [Prsc.ParseResult.offset] using this
  | failure o e ft =>
    rw [hres] at this
    simp only [Prsc.ParseResult.offset] at this
    simp only
    split
    · simpa [Prsc.ParseResult.offset] using this
    · simp [Prsc.okWithValue, Prsc.ParseResult.offset]

lemma starLoop_bounded {T : Type} {p : Prsc.Parser T} {input : Prsc.JSString}
    (hv : ValidInput input) (hp : Bounded p) :
    ∀ fuel nextOffset acc,
      (Prsc.starLoop p input fuel nextOffset acc).offset ≤ max nextOffset input.length := by
  intro fuel
  induction fuel with
  | zero => intro nextOffset acc; simp [Prsc.starLoop, Prsc.ParseResult.offset]
  | succ f ih =>
    intro nextOffset acc
    unfold Prsc.starLoop
    have hb := hp input hv nextOffset
    cases hres : p input nextOffset with
    | failure o e ft =>
      rw [hres] at hb
      simp only [Prsc.ParseResult.offset] at hb
      simp only
      split
      · simpa [Prsc.ParseResult.offset] using hb
      · simp [Prsc.ParseResult.offset]
    | success o v =>
      rw [hres] at hb
      simp only [Prsc.ParseResult.offset] at hb
      simp only
      split
      · simp [Prsc.ParseResult.offset]
      · have := ih o (acc ++ [v])
        omega

lemma bounded_star {A : Type} {p : Prsc.Parser A} (hp : Bounded p) :
    Bounded (Prsc.star p) := by
  intro input hv offset
  exact starLoop_bounded hv hp _ offset []

lemma starConsumedLoop_bounded {T : Type} {p : Prsc.Parser T} {input : Prsc.JSString}
    (hv : ValidInput input) (hp : Bounded p) :
    ∀ fuel nextOffset,
      (Prsc.starConsumedLoop p input fuel nextOffset).offset ≤ max nextOffset input.length := by
  intro fuel
  induction fuel with
  | zero => intro nextOffset; simp [Prsc.starConsumedLoop, Prsc.ParseResult.offset]
  | succ f ih =>
    intro nextOffset
    unfold Prsc.starConsumedLoop
    have hb := hp input hv nextOffset
    cases hres : p input nextOffset with
    | failure o e ft =>
      rw [hres] at hb
      simp only [Prsc.ParseResult.offset] at hb
      simp only
      split
      · simpa [Prsc.ParseResult.offset] using hb
      · simp [Prsc.ok, Prsc.okWithValue, Prsc.ParseResult.offset]
    | success o v =>
      rw [hres] at hb
      simp only [Prsc.ParseResult.offset] at hb
      simp only
      split
      · simp [Prsc.ok, Prsc.okWithValue, Prsc.ParseResult.offset]
      · have := ih o
        omega

lemma bounded_starConsumed {A : Type} {p : Prsc.Parser A} (hp : Bounded p) :
    Bounded (Prsc.starConsumed p) := by
  intro input hv offset
  exact starConsumedLoop_bounded hv hp _ offset

lemma bounded_cut {A : Type} {p : Prsc.Parser A} (hp : Bounded p) :
    Bounded (Prsc.cut p) := by
  intro input hv offset
  have := hp input hv offset
  unfold Prsc.cut
  cases hres : p input offset with
  | failure o e ft => rw [hres] at this; simpa [Prsc.error, Prsc.ParseResult.offset] using this
  | success o v => rw [hres] at this; simpa [Prsc.ParseResult.offset] using this

lemma bounded_recognize {A : Type} {p : Prsc.Parser A} (hp : Bounded p) :
    Bounded (Prsc.recognize p) := by
  intro input hv offset
  have := hp input hv offset
  unfold Prsc.recognize
  cases hres : p input offset with
  | failure o e ft => rw [hres] at this; simpa [Prsc.ParseResult.offset] using this
  | success o v =>
    rw [hres] at this
    simpa [Prsc.okWithValue, Prsc.ParseResult.offset] using this

lemma bounded_peek {A : Type} {p : Prsc.Parser A} (hp : Bounded p) :
    Bounded (Prsc.peek p) := by
  intro input hv offset
  have := hp input hv offset
  unfold Prsc.peek
  cases hres : p input offset with
  | failure o e ft => rw [hres] at this; simpa [Prsc.ParseResult.offset] using this
  | success o v => simp [Prsc.okWithValue, Prsc.ParseResult.offset]

lemma bounded_not {A : Type} (p : Prsc.Parser A) (expected : List Prsc.JSString) :
    Bounded (Prsc.not p expected) := by
  intro input hv offset
  unfold Prsc.not
  cases hres : p input offset with
  | failure o e ft => simp [Prsc.ok, Prsc.okWithValue, Prsc.ParseResult.offset]
  | success o v => simp [Prsc.error, Prsc.ParseResult.offset]

lemma bounded_dispatch {A : Type} {mapping : List (Nat × Prsc.Parser A)}
    {otherwise : Option (Prsc.Parser A)} (extraOffset : Nat) (expected : List Prsc.JSString)
    (hmm : ∀ c ∈ mapping, Bounded c.2) (ho : ∀ q, otherwise = some q → Bounded q) :
    Bounded (Prsc.dispatch mapping otherwise extraOffset expected) := by
  intro input hv offset
  unfold Prsc.dispatch
  cases hcp : Prsc.codePointAt input (offset + extraOffset) with
  | none => simp [Prsc.error, Prsc.ParseResult.offset]
  | some cp =>
    simp only
    cases hl : List.lookup cp mapping with
    | some q => exact hmm (cp, q) (mem_of_lookup_eq_some hl) input hv offset
    | none =>
      cases hother : otherwise with
      | some q => exact ho q hother input hv offset
      | none => simp [Prsc.error, Prsc.ParseResult.offset]

lemma bounded_start : Bounded Prsc.start := by
  intro input hv offset
  unfold Prsc.start
  split
  · simp [Prsc.ok, Prsc.okWithValue, Prsc.ParseResult.offset]
  · simp [Prsc.error, Prsc.ParseResult.offset]

lemma bounded_endP : Bounded Prsc.endP := by
  intro input hv offset
  unfold Prsc.endP
  split
  · simp [Prsc.ok, Prsc.okWithValue, Prsc.ParseResult.offset]
  · simp [Prsc.error, Prsc.ParseResult.offset]

lemma bounded_range (a b : Nat) (expected : Option (List Prsc.JSString)) :
    Bounded (Prsc.range a b expected) :=
  bounded_codepoint _ _

lemma bounded_filterUndefined {A : Type} {p : Prsc.Parser (List (Option A))}
    (hp : Bounded p) : Bounded (Prsc.filterUndefined p) :=
  bounded_map _ hp

lemma bounded_plus {A : Type} {p : Prsc.Parser A} (hp : Bounded p) :
    Bounded (Prsc.plus p) :=
  bounded_thenP _ hp (bounded_star hp)

lemma bounded_plusConsumed {A : Type} {p : Prsc.Parser A} (hp : Bounded p) :
    Bounded (Prsc.plusConsumed p) :=
  bounded_thenP _ hp (bounded_starConsumed hp)

lemma bounded_preceded {A B : Type} {p1 : Prsc.Parser A} {p2 : Prsc.Parser B}
    (h1 : Bounded p1) (h2 : Bounded p2) : Bounded (Prsc.preceded p1 p2) :=
  bounded_thenP _ h1 h2

lemma bounded_followed {A B : Type} {p1 : Prsc.Parser A} {p2 : Prsc.Parser B}
    (h1 : Bounded p1) (h2 : Bounded p2) : Bounded (Prsc.followed p1 p2) :=
  bounded_thenP _ h1 h2

lemma bounded_delimited {A B C : Type} {p1 : Prsc.Parser A} {p2 : Prsc.Parser B}
    {p3 : Prsc.Parser C} (cutAfterOpen : Bool)
    (h1 : Bounded p1) (h2 : Bounded p2) (h3 : Bounded p3) :
    Bounded (Prsc.delimited p1 p2 p3 cutAfterOpen) := by
  unfold Prsc.delimited
  cases cutAfterOpen with
  | true => exact bounded_preceded h1 (bounded_cut (bounded_followed h2 h3))
  | false => exact bounded_preceded h1 (bounded_followed h2 h3)

lemma bounded_except {A B : Type} {p : Prsc.Parser A} {q : Prsc.Parser B}
    (expected : List Prsc.JSString) (hp : Bounded p) :
    Bounded (Prsc.except p q expected) :=
  bounded_preceded (bounded_not q expected) hp

lemma bounded_complete {A : Type} {p : Prsc.Parser A} (hp : Bounded p) :
    Bounded (Prsc.complete p) :=
  bounded_thenP _ hp bounded_endP

lemma starLoop_fuel_invariant {T : Type} {p : Prsc.Parser T} {input : Prsc.JSString}
    (hm : Mono p) (hb : Bounded p) (hv : ValidInput input) :
    ∀ fuel fuel' nextOffset acc, 1 ≤ fuel → 1 ≤ fuel' →
      input.length + 1 - nextOffset ≤ fuel → input.length + 1 - nextOffset ≤ fuel' →
      Prsc.starLoop p input fuel nextOffset acc =
        Prsc.starLoop p input fuel' nextOffset acc := by
  intro fuel
  induction fuel with
  | zero => intro fuel' nextOffset acc h1 _ _ _; omega
  | succ f ih =>
    intro fuel' nextOffset acc _ h1' hf hf'
    cases fuel' with
    | zero => omega
    | succ f' =>
      show Prsc.starLoop p input (f + 1) nextOffset acc =
        Prsc.starLoop p input (f' + 1) nextOffset acc
      unfold Prsc.starLoop
      cases hres : p input nextOffset with
      | failure o e ft => rfl
      | success o v =>
        simp only
        split
        · rfl
        next hne =>
          have hmono : nextOffset ≤ o := hm input nextOffset o v hres
          have hbound := hb input hv nextOffset
          rw [hres] at hbound
          simp only [Prsc.ParseResult.offset] at hbound
          have holt : nextOffset < o := by omega
          have hole : o ≤ input.length := by omega
          exact ih f' o (acc ++ [v]) (by omega) (by omega) (by omega) (by omega)

/-- C3: `star` stops on a non-advancing match: if the inner parser succeeds
at the starting offset without moving it, `star` immediately returns success
at that offset with exactly that one recorded value; moreover, for any inner
parser satisfying the library's offset invariants on a well-formed input,
the repetition loop is insensitive to any additional fuel beyond
`input.length + 1` — the `while (true)` loop terminates. -/
theorem star_terminates :
    (∀ {T : Type} (p : Prsc.Parser T) (input : Prsc.JSString) (offset : Nat) (v : T),
      p input offset = Prsc.ParseResult.success offset v →
      Prsc.star p input offset = Prsc.ParseResult.success offset [v])
    ∧ (∀ {T : Type} (p : Prsc.Parser T), Mono p → Bounded p →
      ∀ input : Prsc.JSString, ValidInput input → ∀ offset fuel,
        input.length + 1 ≤ fuel →
        Prsc.starLoop p input fuel offset [] = Prsc.star p input offset) := by
  constructor
  · intro T p input offset v h
    unfold Prsc.star Prsc.starLoop
    rw [h]
    simp
  · intro T p hm hb input hv offset fuel hfuel
    unfold Prsc.star
    exact starLoop_fuel_invariant hm hb hv fuel (input.length + 1) offset []
      (by omega) (by omega) (by omega) (by omega)

/-- Witness for C3: `star(peek(token "a")))` on "a" at offset 0 stops after a
single recorded zero-width iteration, and the loop on `token "a"` is
fuel-insensitive beyond length 1 + 1. -/
theorem star_terminates_witness :
    Prsc.star (Prsc.peek (Prsc.token [97])) [97] 0 =
      Prsc.ParseResult.success 0 [[97]] ∧
    Prsc.starLoop (Prsc.token [97]) [97] 5 0 [] = Prsc.star (Prsc.token [97]) [97] 0 := by
  constructor
  · exact star_terminates.1 (Prsc.peek (Prsc.token [97])) [97] 0 [97] rfl
  · exact star_terminates.2 (Prsc.token [97]) (mono_token [97]) (bounded_token [97])
      [97] (by intro u hu; simp at hu; omega) 0 5 (by simp)

/-- The parsers built from the library's public combinator surface:
primitive matchers, transformation, sequencing, choice, repetition,
lookahead, negation, capture, dispatch, and fatal-error promotion. -/
inductive Built : ∀ {T : Type}, Prsc.Parser T → Prop where
  | token (tok : Prsc.JSString) : Built (Prsc.token tok)
  | codepoint (isMatch : Nat → Bool) (expected : List Prsc.JSString) :
      Built (Prsc.codepoint isMatch expected)
  | codepoints (isMatch : Nat → Bool) (expected : Option (List Prsc.JSString)) :
      Built (Prsc.codepoints isMatch expected)
  | range (a b : Nat) (expected : Option (List Prsc.JSString)) :
      Built (Prsc.range a b expected)
  | skipChars (n : Nat) : Built (Prsc.skipChars n)
  | map {A B : Type} (p : Prsc.Parser A) (f : A → B) : Built p → Built (Prsc.map p f)
  | consume {A : Type} (p : Prsc.Parser A) : Built p → Built (Prsc.consume p)
  | filter {A : Type} (p : Prsc.Parser A) (pred : A → Bool)
      (expected : List Prsc.JSString) (fatal : Bool) :
      Built p → Built (Prsc.filter p pred expected fatal)
  | or {A : Type} (ps : List (Prsc.Parser A)) (expected : Option (List Prsc.JSString)) :
      (∀ p ∈ ps, Built p) → Built (Prsc.or ps expected)
  | optional {A : Type} (p : Prsc.Parser A) : Built p → Built (Prsc.optional p)
  | star {A : Type} (p : Prsc.Parser A) : Built p → Built (Prsc.star p)
  | starConsumed {A : Type} (p : Prsc.Parser A) : Built p → Built (Prsc.starConsumed p)
  | filterUndefined {A : Type} (p : Prsc.Parser (List (Option A))) :
      Built p → Built (Prsc.filterUndefined p)
  | thenP {A B C : Type} (p1 : Prsc.Parser A) (p2 : Prsc.Parser B) (join : A → B → C) :
      Built p1 → Built p2 → Built (Prsc.thenP p1 p2 join)
  | plus {A : Type} (p : Prsc.Parser A) : Built p → Built (Prsc.plus p)
  | plusConsumed {A : Type} (p : Prsc.Parser A) : Built p → Built (Prsc.plusConsumed p)
  | preceded {A B : Type} (p1 : Prsc.Parser A) (p2 : Prsc.Parser B) :
      Built p1 → Built p2 → Built (Prsc.preceded p1 p2)
  | followed {A B : Type} (p1 : Prsc.Parser A) (p2 : Prsc.Parser B) :
      Built p1 → Built p2 → Built (Prsc.followed p1 p2)
  | delimited {A B C : Type} (p1 : Prsc.Parser A) (p2 : Prsc.Parser B) (p3 : Prsc.Parser C)
      (cutAfterOpen : Bool) :
      Built p1 → Built p2 → Built p3 → Built (Prsc.delimited p1 p2 p3 cutAfterOpen)
  | recognize {A : Type} (p : Prsc.Parser A) : Built p → Built (Prsc.recognize p)
  | peek {A : Type} (p : Prsc.Parser A) : Built p → Built (Prsc.peek p)
  | notP {A : Type} (p : Prsc.Parser A) (expected : List Prsc.JSString) :
      Built p → Built (Prsc.not p expected)
  | exceptP {A B : Type} (p : Prsc.Parser A) (q : Prsc.Parser B)
      (expected : List Prsc.JSString) : Built p → Built q → Built (Prsc.except p q expected)
  | dispatch {A : Type} (mapping : List (Nat × Prsc.Parser A))
      (otherwise : Option (Prsc.Parser A)) (extraOffset : Nat)
      (expected : List Prsc.JSString) :
      (∀ c ∈ mapping, Built c.2) → (∀ q, otherwise = some q → Built q) →
      Built (Prsc.dispatch mapping otherwise extraOffset expected)
  | cut {A : Type} (p : Prsc.Parser A) : Built p → Built (Prsc.cut p)
  | start : Built Prsc.start
  | endP : Built Prsc.endP
  | complete {A : Type} (p : Prsc.Parser A) : Built p → Built (Prsc.complete p)

lemma built_mono {T : Type} {p : Prsc.Parser T} (h : Built p) : Mono p := by
  induction h with
  | token tok => exact mono_token tok
  | codepoint isMatch expected => exact mono_codepoint isMatch expected
  | codepoints isMatch expected => exact mono_codepoints isMatch expected
  | range a b expected => exact mono_range a b expected
  | skipChars n => exact mono_skipChars n
  | map p f _ ih => exact mono_map f ih
  | consume p _ ih => exact mono_consume ih
  | filter p pred expected fatal _ ih => exact mono_filter pred expected fatal ih
  | or ps expected _ ih => exact mono_or expected ih
  | optional p _ ih => exact mono_optional ih
  | star p _ ih => exact mono_star ih
  | starConsumed p _ ih => exact mono_starConsumed ih
  | filterUndefined p _ ih => exact mono_filterUndefined ih
  | thenP p1 p2 join _ _ ih1 ih2 => exact mono_thenP join ih1 ih2
  | plus p _ ih => exact mono_plus ih
  | plusConsumed p _ ih => exact mono_plusConsumed ih
  | preceded p1 p2 _ _ ih1 ih2 => exact mono_preceded ih1 ih2
  | followed p1 p2 _ _ ih1 ih2 => exact mono_followed ih1 ih2
  | delimited p1 p2 p3 cutAfterOpen _ _ _ ih1 ih2 ih3 =>
    exact mono_delimited cutAfterOpen ih1 ih2 ih3
  | recognize p _ ih => exact mono_recognize ih
  | peek p _ _ih => exact mono_peek p
  | notP p expected _ _ih => exact mono_not p expected
  | exceptP p q expected _ _ ih1 _ih2 => exact mono_except expected ih1
  | dispatch mapping otherwise extraOffset expected _ _ ihm iho =>
    exact mono_dispatch extraOffset expected ihm iho
  | cut p _ ih => exact mono_cut ih
  | start => exact mono_start
  | endP => exact mono_endP
  | complete p _ ih => exact mono_complete ih

lemma built_bounded {T : Type} {p : Prsc.Parser T} (h : Built p) : Bounded p := by
  induction h with
  | token tok => exact bounded_token tok
  | codepoint isMatch expected => exact bounded_codepoint isMatch expected
  | codepoints isMatch expected => exact bounded_codepoints isMatch expected
  | range a b expected => exact bounded_range a b expected
  | skipChars n => exact bounded_skipChars n
  | map p f _ ih => exact bounded_map f ih
  | consume p _ ih => exact bounded_consume ih
  | filter p pred expected fatal _ ih => exact bounded_filter pred expected fatal ih
  | or ps expected _ ih => exact bounded_or expected ih
  | optional p _ ih => exact bounded_optional ih
  | star p _ ih => exact bounded_star ih
  | starConsumed p _ ih => exact bounded_starConsumed ih
  | filterUndefined p _ ih => exact bounded_filterUndefined ih
  | thenP p1 p2 join _ _ ih1 ih2 => exact bounded_thenP join ih1 ih2
  | plus p _ ih => exact bounded_plus ih
  | plusConsumed p _ ih => exact bounded_plusConsumed ih
  | preceded p1 p2 _ _ ih1 ih2 => exact bounded_preceded ih1 ih2
  | followed p1 p2 _ _ ih1 ih2 => exact bounded_followed ih1 ih2
  | delimited p1 p2 p3 cutAfterOpen _ _ _ ih1 ih2 ih3 =>
    exact bounded_delimited cutAfterOpen ih1 ih2 ih3
  | recognize p _ ih => exact bounded_recognize ih
  | peek p _ ih => exact bounded_peek ih
  | notP p expected _ _ih => exact bounded_not p expected
  | exceptP p q expected _ _ ih1 _ih2 => exact bounded_except expected ih1
  | dispatch mapping otherwise extraOffset expected _ _ ihm iho =>
    exact bounded_dispatch extraOffset expected ihm iho
  | cut p _ ih => exact bounded_cut ih
  | start => exact bounded_start
  | endP => exact bounded_endP
  | complete p _ ih => exact bounded_complete ih

/-- C7: every parser built from the library's combinators never moves the
offset backward on success, and `peek` always succeeds at exactly the
starting offset. -/
theorem success_never_moves_backward :
    (∀ {T : Type} (p : Prsc.Parser T), Built p →
      ∀ (input : Prsc.JSString) (offset o : Nat) (v : T),
        p input offset = Prsc.ParseResult.success o v → offset ≤ o)
    ∧ (∀ {T : Type} (p : Prsc.Parser T) (input : Prsc.JSString) (offset o : Nat) (v : T),
        Prsc.peek p input offset = Prsc.ParseResult.success o v → o = offset) := by
  constructor
  · intro T p hb input offset o v h
    exact built_mono hb input offset o v h
  · intro T p input offset o v h
    unfold Prsc.peek at h
    cases hres : p input offset with
    | failure o1 e1 f1 => rw [hres] at h; simp at h
    | success o1 v1 =>
      rw [hres] at h
      simp [Prsc.okWithValue] at h
      exact h.1.symm

/-- Witness for C7: `token "a"` on "ab" at offset 0 succeeds at offset 1 ≥ 0,
and `peek` of it succeeds back at offset 0. -/
theorem success_never_moves_backward_witness :
    (0 : Nat) ≤ 1 ∧ (0 : Nat) = 0 := by
  constructor
  · exact success_never_moves_backward.1 (Prsc.token [97]) (Built.token [97])
      [97, 98] 0 1 [97] rfl
  · exact success_never_moves_backward.2 (Prsc.token [97]) [97, 98] 0 0 [97] rfl

/-- Counterexample to C8 as stated: a combinator-built parser invoked at a
starting offset beyond the input length reports that offset, which lies
outside `[0, length(input)]`. -/
theorem offset_in_range_counterexample :
    Built (Prsc.token [97]) ∧
    Prsc.token [97] [] 5 = Prsc.ParseResult.failure 5 [[97]] false ∧
    ¬ (Prsc.token [97] [] 5).offset ≤ ([] : Prsc.JSString).length := by
  refine ⟨Built.token [97], rfl, ?_⟩
  decide

/-- C8 (amended): for every parser built from the library's combinators,
every well-formed input, and every starting offset within
`[0, length(input)]`, the offset carried by the returned ParseResult —
success or failure — lies within `[0, length(input)]`. -/
theorem offset_in_range {T : Type} (p : Prsc.Parser T) (hb : Built p)
    (input : Prsc.JSString) (hv : ValidInput input) (offset : Nat)
    (hoff : offset ≤ input.length) :
    0 ≤ (p input offset).offset ∧ (p input offset).offset ≤ input.length := by
  have := built_bounded hb input hv offset
  constructor
  · exact Nat.zero_le _
  · omega

/-- Witness for C8: `token "b"` on "ab" at offset 0 fails at offset 0, which
lies within `[0, 2]`. -/
theorem offset_in_range_witness :
    0 ≤ (Prsc.token [98] [97, 98] 0).offset ∧
      (Prsc.token [98] [97, 98] 0).offset ≤ ([97, 98] : Prsc.JSString).length :=
  offset_in_range (Prsc.token [98]) (Built.token [98]) [97, 98]
    (by intro u hu; simp at hu; omega) 0 (by simp)

/-!
Fatal-failure provenance. `NeverFatal` says a parser never reports a fatal
failure; `CutFree b` is the combinator grammar without `cut` and without
`delimited` with `cutAfterOpen=true` (and, when `b = false`, also without
`filter` with its `fatal` flag set).
-/

/-- The parser never returns a failure with `fatal = true`. -/
def NeverFatal {T : Type} (p : Prsc.Parser T) : Prop :=
  ∀ input offset o e, p input offset ≠ Prsc.ParseResult.failure o e true

lemma nf_token (tok : Prsc.JSString) : NeverFatal (Prsc.token tok) := by
  intro input offset o e h
  unfold Prsc.token at h
  split at h
  · simp [Prsc.okWithValue] at h
  · simp [Prsc.error] at h

lemma nf_codepoint (isMatch : Nat → Bool) (expected : List Prsc.JSString) :
    NeverFatal (Prsc.codepoint isMatch expected) := by
  intro input offset o e h
  unfold Prsc.codepoint at h
  cases hcp : Prsc.codePointAt input offset with
  | none => rw [hcp] at h; simp [Prsc.error] at h
  | some cp =>
    rw [hcp] at h
    simp only at h
    split at h
    · simp [Prsc.ok, Prsc.okWithValue] at h
    · simp [Prsc.error] at h

lemma nf_codepoints (isMatch : Nat → Bool) (expected : Option (List Prsc.JSString)) :
    NeverFatal (Prsc.codepoints isMatch expected) := by
  intro input offset o e h
  unfold Prsc.codepoints at h
  cases expected with
  | none => simp [Prsc.ok, Prsc.okWithValue] at h
  | some exp =>
    simp only at h
    split at h
    · simp [Prsc.error] at h
    · simp [Prsc.ok, Prsc.okWithValue] at h

lemma nf_range (a b : Nat) (expected : Option (List Prsc.JSString)) :
    NeverFatal (Prsc.range a b expected) :=
  nf_codepoint _ _

lemma nf_skipLoop (input : Prsc.JSString) :
    ∀ n offset o e, Prsc.skipLoop input n offset ≠ Prsc.ParseResult.failure o e true := by
  intro n
  induction n with
  | zero => intro offset o e h; simp [Prsc.skipLoop, Prsc.ok, Prsc.okWithValue] at h
  | succ k ih =>
    intro offset o e h
    unfold Prsc.skipLoop at h
    cases hcp : Prsc.codePointAt input offset with
    | none => rw [hcp] at h; simp [Prsc.error] at h
    | some cp =>
      rw [hcp] at h
      exact ih _ o e h

lemma nf_skipChars (n : Nat) : NeverFatal (Prsc.skipChars n) := by
  intro input offset o e h
  exact nf_skipLoop input n offset o e h

lemma nf_map {A B : Type} {p : Prsc.Parser A} (f : A → B) (hp : NeverFatal p) :
    NeverFatal (Prsc.map p f) := by
  intro input offset o e h
  unfold Prsc.map at h
  cases hres : p input offset with
  | failure o1 e1 f1 =>
    rw [hres] at h
    simp only at h
    injection h with h1 h2 h3
    subst h1; subst h2; subst h3
    exact hp input offset _ _ hres
  | success o1 v1 => rw [hres] at h; simp [Prsc.okWithValue] at h

lemma nf_consume {A : Type} {p : Prsc.Parser A} (hp : NeverFatal p) :
    NeverFatal (Prsc.consume p) :=
  nf_map _ hp

lemma nf_filter {A : Type} {p : Prsc.Parser A} (pred : A → Bool)
    (expected : List Prsc.JSString) (hp : NeverFatal p) :
    NeverFatal (Prsc.filter p pred expected false) := by
  intro input offset o e h
  unfold Prsc.filter at h
  cases hres : p input offset with
  | failure o1 e1 f1 =>
    rw [hres] at h
    simp only at h
    injection h with h1 h2 h3
    subst h1; subst h2; subst h3
    exact hp input offset _ _ hres
  | success o1 v1 =>
    rw [hres] at h
    simp only at h
    split at h
    · simp at h
    · simp [Prsc.error] at h

lemma nf_orGo {T : Type} (input : Prsc.JSString) (offset : Nat)
    (expected : Option (List Prsc.JSString)) :
    ∀ (ps : List (Prsc.Parser T)) (acc : Option (Nat × List Prsc.JSString)) (o : Nat)
      (e : List Prsc.JSString),
      (∀ p ∈ ps, NeverFatal p) →
      Prsc.orGo input offset expected ps acc ≠ Prsc.ParseResult.failure o e true := by
  intro ps
  induction ps with
  | nil =>
    intro acc o e _ h
    unfold Prsc.orGo at h
    cases acc with
    | none => simp at h
    | some a => cases a with | mk lo le => simp at h
  | cons q qs ih =>
    intro acc o e hnf h
    unfold Prsc.orGo at h
    cases hres : q input offset with
    | success o1 v1 => rw [hres] at h; simp at h
    | failure o1 e1 f1 =>
      rw [hres] at h
      simp only at h
      split at h
      next hf =>
        injection h with h1 h2 h3
        subst h1; subst h2
        subst hf
        exact hnf q (List.mem_cons_self q qs) input offset _ _ hres
      · exact ih _ o e (fun r hr => hnf r (List.mem_cons_of_mem q hr)) h

lemma nf_or {T : Type} {ps : List (Prsc.Parser T)}
    (expected : Option (List Prsc.JSString)) (hnf : ∀ p ∈ ps, NeverFatal p) :
    NeverFatal (Prsc.or ps expected) := by
  intro input offset o e h
  exact nf_orGo input offset expected ps none o e hnf h

lemma nf_optional {A : Type} {p : Prsc.Parser A} (hp : NeverFatal p) :
    NeverFatal (Prsc.optional p) := by
  intro input offset o e h
  unfold Prsc.optional at h
  cases hres : p input offset with
  | success o1 v1 => rw [hres] at h; simp at h
  | failure o1 e1 f1 =>
    rw [hres] at h
    simp only at h
    split at h
    next hf =>
      injection h with h1 h2 h3
      subst h1; subst h2; subst h3
      exact hp input offset _ _ hres
    · simp [Prsc.okWithValue] at h

lemma nf_starLoop {T : Type} {p : Prsc.Parser T} (input : Prsc.JSString)
    (hp : NeverFatal p) :
    ∀ fuel nextOffset acc o e,
      Prsc.starLoop p input fuel nextOffset acc ≠ Prsc.ParseResult.failure o e true := by
  intro fuel
  induction fuel with
  | zero =>
    intro nextOffset acc o e h
    simp [Prsc.starLoop] at h
  | succ f ih =>
    intro nextOffset acc o e h
    unfold Prsc.starLoop at h
    cases hres : p input nextOffset with
    | failure o1 e1 f1 =>
      rw [hres] at h
      simp only at h
      split at h
      next hf =>
        injection h with h1 h2 h3
        subst h1; subst h2
        subst hf
        exact hp input nextOffset _ _ hres
      · simp at h
    | success o1 v1 =>
      rw [hres] at h
      simp only at h
      split at h
      · simp at h
      · exact ih o1 (acc ++ [v1]) o e h

lemma nf_star {A : Type} {p : Prsc.Parser A} (hp : NeverFatal p) :
    NeverFatal (Prsc.star p) := by
  intro input offset o e h
  exact nf_starLoop input hp _ offset [] o e h

lemma nf_starConsumedLoop {T : Type} {p : Prsc.Parser T} (input : Prsc.JSString)
    (hp : NeverFatal p) :
    ∀ fuel nextOffset o e,
      Prsc.starConsumedLoop p input fuel nextOffset ≠ Prsc.ParseResult.failure o e true := by
  intro fuel
  induction fuel with
  | zero =>
    intro nextOffset o e h
    simp [Prsc.starConsumedLoop] at h
  | succ f ih =>
    intro nextOffset o e h
    unfold Prsc.starConsumedLoop at h
    cases hres : p input nextOffset with
    | failure o1 e1 f1 =>
      rw [hres] at h
      simp only at h
      split at h
      next hf =>
        injection h with h1 h2 h3
        subst h1; subst h2
        subst hf
        exact hp input nextOffset _ _ hres
      · simp [Prsc.ok, Prsc.okWithValue] at h
    | success o1 v1 =>
      rw [hres] at h
      simp only at h
      split at h
      · simp [Prsc.ok, Prsc.okWithValue] at h
      · exact ih o1 o e h

lemma nf_starConsumed {A : Type} {p : Prsc.Parser A} (hp : NeverFatal p) :
    NeverFatal (Prsc.starConsumed p) := by
  intro input offset o e h
  exact nf_starConsumedLoop input hp _ offset o e h

lemma nf_thenP {A B C : Type} {p1 : Prsc.Parser A} {p2 : Prsc.Parser B}
    (join : A → B → C) (h1 : NeverFatal p1) (h2 : NeverFatal p2) :
    NeverFatal (Prsc.thenP p1 p2 join) := by
  intro input offset o e h
  unfold Prsc.thenP at h
  cases hr1 : p1 input offset with
  | failure o1 e1 f1 =>
    rw [hr1] at h
    simp only at h
    injection h with ha hb hc
    subst ha; subst hb; subst hc
    exact h1 input offset _ _ hr1
  | success o1 v1 =>
    rw [hr1] at h
    simp only at h
    cases hr2 : p2 input o1 with
    | failure o2 e2 f2 =>
      rw [hr2] at h
      simp only at h
      injection h with ha hb hc
      subst ha; subst hb; subst hc
      exact h2 input o1 _ _ hr2
    | success o2 v2 => rw [hr2] at h; simp [Prsc.okWithValue] at h

lemma nf_filterUndefined {A : Type} {p : Prsc.Parser (List (Option A))}
    (hp : NeverFatal p) : NeverFatal (Prsc.filterUndefined p) :=
  nf_map _ hp

lemma nf_plus {A : Type} {p : Prsc.Parser A} (hp : NeverFatal p) :
    NeverFatal (Prsc.plus p) :=
  nf_thenP _ hp (nf_star hp)

lemma nf_plusConsumed {A : Type} {p : Prsc.Parser A} (hp : NeverFatal p) :
    NeverFatal (Prsc.plusConsumed p) :=
  nf_thenP _ hp (nf_starConsumed hp)

lemma nf_preceded {A B : Type} {p1 : Prsc.Parser A} {p2 : Prsc.Parser B}
    (h1 : NeverFatal p1) (h2 : NeverFatal p2) : NeverFatal (Prsc.preceded p1 p2) :=
  nf_thenP _ h1 h2

lemma nf_followed {A B : Type} {p1 : Prsc.Parser A} {p2 : Prsc.Parser B}
    (h1 : NeverFatal p1) (h2 : NeverFatal p2) : NeverFatal (Prsc.followed p1 p2) :=
  nf_thenP _ h1 h2

lemma nf_delimited {A B C : Type} {p1 : Prsc.Parser A} {p2 : Prsc.Parser B}
    {p3 : Prsc.Parser C} (h1 : NeverFatal p1) (h2 : NeverFatal p2) (h3 : NeverFatal p3) :
    NeverFatal (Prsc.delimited p1 p2 p3 false) := by
  unfold Prsc.delimited
  exact nf_preceded h1 (nf_followed h2 h3)

lemma nf_recognize {A : Type} {p : Prsc.Parser A} (hp : NeverFatal p) :
    NeverFatal (Prsc.recognize p) := by
  intro input offset o e h
  unfold Prsc.recognize at h
  cases hres : p input offset with
  | failure o1 e1 f1 =>
    rw [hres] at h
    simp only at h
    injection h with ha hb hc
    subst ha; subst hb; subst hc
    exact hp input offset _ _ hres
  | success o1 v1 => rw [hres] at h; simp [Prsc.okWithValue] at h

lemma nf_peek {A : Type} {p : Prsc.Parser A} (hp : NeverFatal p) :
    NeverFatal (Prsc.peek p) := by
  intro input offset o e h
  unfold Prsc.peek at h
  cases hres : p input offset with
  | failure o1 e1 f1 =>
    rw [hres] at h
    simp only at h
    injection h with ha hb hc
    subst ha; subst hb; subst hc
    exact hp input offset _ _ hres
  | success o1 v1 => rw [hres] at h; simp [Prsc.okWithValue] at h

lemma nf_not {A : Type} (p : Prsc.Parser A) (expected : List Prsc.JSString) :
    NeverFatal (Prsc.not p expected) := by
  intro input offset o e h
  unfold Prsc.not at h
  cases hres : p input offset with
  | failure o1 e1 f1 => rw [hres] at h; simp [Prsc.ok, Prsc.okWithValue] at h
  | success o1 v1 => rw [hres] at h; simp [Prsc.error] at h

lemma nf_except {A B : Type} {p : Prsc.Parser A} {q : Prsc.Parser B}
    (expected : List Prsc.JSString) (hp : NeverFatal p) :
    NeverFatal (Prsc.except p q expected) :=
  nf_preceded (nf_not q expected) hp

lemma nf_dispatch {A : Type} {mapping : List (Nat × Prsc.Parser A)}
    {otherwise : Option (Prsc.Parser A)} (extraOffset : Nat) (expected : List Prsc.JSString)
    (hmm : ∀ c ∈ mapping, NeverFatal c.2) (ho : ∀ q, otherwise = some q → NeverFatal q) :
    NeverFatal (Prsc.dispatch mapping otherwise extraOffset expected) := by
  intro input offset o e h
  unfold Prsc.dispatch at h
  cases hcp : Prsc.codePointAt input (offset + extraOffset) with
  | none => rw [hcp] at h; simp [Prsc.error] at h
  | some cp =>
    rw [hcp] at h
    simp only at h
    cases hl : List.lookup cp mapping with
    | some q =>
      rw [hl] at h
      exact hmm (cp, q) (mem_of_lookup_eq_some hl) input offset o e h
    | none =>
      rw [hl] at h
      cases hother : otherwise with
      | some q =>
        rw [hother] at h
        exact ho q hother input offset o e h
      | none => rw [hother] at h; simp [Prsc.error] at h

lemma nf_start : NeverFatal Prsc.start := by
  intro input offset o e h
  unfold Prsc.start at h
  split at h
  · simp [Prsc.ok, Prsc.okWithValue] at h
  · simp [Prsc.error] at h

lemma nf_endP : NeverFatal Prsc.endP := by
  intro input offset o e h
  unfold Prsc.endP at h
  split at h
  · simp [Prsc.ok, Prsc.okWithValue] at h
  · simp [Prsc.error] at h

lemma nf_complete {A : Type} {p : Prsc.Parser A} (hp : NeverFatal p) :
    NeverFatal (Prsc.complete p) :=
  nf_thenP _ hp nf_endP

/-- The combinator grammar without `cut` and without `delimited` with
`cutAfterOpen = true`; the flag says whether `filter` with its `fatal`
argument set is still admitted. -/
inductive CutFree (allowFilterFatal : Bool) : ∀ {T : Type}, Prsc.Parser T → Prop where
  | token (tok : Prsc.JSString) : CutFree allowFilterFatal (Prsc.token tok)
  | codepoint (isMatch : Nat → Bool) (expected : List Prsc.JSString) :
      CutFree allowFilterFatal (Prsc.codepoint isMatch expected)
  | codepoints (isMatch : Nat → Bool) (expected : Option (List Prsc.JSString)) :
      CutFree allowFilterFatal (Prsc.codepoints isMatch expected)
  | range (a b : Nat) (expected : Option (List Prsc.JSString)) :
      CutFree allowFilterFatal (Prsc.range a b expected)
  | skipChars (n : Nat) : CutFree allowFilterFatal (Prsc.skipChars n)
  | map {A B : Type} (p : Prsc.Parser A) (f : A → B) :
      CutFree allowFilterFatal p → CutFree allowFilterFatal (Prsc.map p f)
  | consume {A : Type} (p : Prsc.Parser A) :
      CutFree allowFilterFatal p → CutFree allowFilterFatal (Prsc.consume p)
  | filter {A : Type} (p : Prsc.Parser A) (pred : A → Bool)
      (expected : List Prsc.JSString) (fatal : Bool) :
      (fatal = false ∨ allowFilterFatal = true) →
      CutFree allowFilterFatal p →
      CutFree allowFilterFatal (Prsc.filter p pred expected fatal)
  | or {A : Type} (ps : List (Prsc.Parser A)) (expected : Option (List Prsc.JSString)) :
      (∀ p ∈ ps, CutFree allowFilterFatal p) →
      CutFree allowFilterFatal (Prsc.or ps expected)
  | optional {A : Type} (p : Prsc.Parser A) :
      CutFree allowFilterFatal p → CutFree allowFilterFatal (Prsc.optional p)
  | star {A : Type} (p : Prsc.Parser A) :
      CutFree allowFilterFatal p → CutFree allowFilterFatal (Prsc.star p)
  | starConsumed {A : Type} (p : Prsc.Parser A) :
      CutFree allowFilterFatal p → CutFree allowFilterFatal (Prsc.starConsumed p)
  | filterUndefined {A : Type} (p : Prsc.Parser (List (Option A))) :
      CutFree allowFilterFatal p → CutFree allowFilterFatal (Prsc.filterUndefined p)
  | thenP {A B C : Type} (p1 : Prsc.Parser A) (p2 : Prsc.Parser B) (join : A → B → C) :
      CutFree allowFilterFatal p1 → CutFree allowFilterFatal p2 →
      CutFree allowFilterFatal (Prsc.thenP p1 p2 join)
  | plus {A : Type} (p : Prsc.Parser A) :
      CutFree allowFilterFatal p → CutFree allowFilterFatal (Prsc.plus p)
  | plusConsumed {A : Type} (p : Prsc.Parser A) :
      CutFree allowFilterFatal p → CutFree allowFilterFatal (Prsc.plusConsumed p)
  | preceded {A B : Type} (p1 : Prsc.Parser A) (p2 : Prsc.Parser B) :
      CutFree allowFilterFatal p1 → CutFree allowFilterFatal p2 →
      CutFree allowFilterFatal (Prsc.preceded p1 p2)
  | followed {A B : Type} (p1 : Prsc.Parser A) (p2 : Prsc.Parser B) :
      CutFree allowFilterFatal p1 → CutFree allowFilterFatal p2 →
      CutFree allowFilterFatal (Prsc.followed p1 p2)
  | delimited {A B C : Type} (p1 : Prsc.Parser A) (p2 : Prsc.Parser B) (p3 : Prsc.Parser C) :
      CutFree allowFilterFatal p1 → CutFree allowFilterFatal p2 →
      CutFree allowFilterFatal p3 →
      CutFree allowFilterFatal (Prsc.delimited p1 p2 p3 false)
  | recognize {A : Type} (p : Prsc.Parser A) :
      CutFree allowFilterFatal p → CutFree allowFilterFatal (Prsc.recognize p)
  | peek {A : Type} (p : Prsc.Parser A) :
      CutFree allowFilterFatal p → CutFree allowFilterFatal (Prsc.peek p)
  | notP {A : Type} (p : Prsc.Parser A) (expected : List Prsc.JSString) :
      CutFree allowFilterFatal p → CutFree allowFilterFatal (Prsc.not p expected)
  | exceptP {A B : Type} (p : Prsc.Parser A) (q : Prsc.Parser B)
      (expected : List Prsc.JSString) :
      CutFree allowFilterFatal p → CutFree allowFilterFatal q →
      CutFree allowFilterFatal (Prsc.except p q expected)
  | dispatch {A : Type} (mapping : List (Nat × Prsc.Parser A))
      (otherwise : Option (Prsc.Parser A)) (extraOffset : Nat)
      (expected : List Prsc.JSString) :
      (∀ c ∈ mapping, CutFree allowFilterFatal c.2) →
      (∀ q, otherwise = some q → CutFree allowFilterFatal q) →
      CutFree allowFilterFatal (Prsc.dispatch mapping otherwise extraOffset expected)
  | start : CutFree allowFilterFatal Prsc.start
  | endP : CutFree allowFilterFatal Prsc.endP
  | complete {A : Type} (p : Prsc.Parser A) :
      CutFree allowFilterFatal p → CutFree allowFilterFatal (Prsc.complete p)

lemma cutFree_neverFatal {T : Type} {p : Prsc.Parser T} (h : CutFree false p) :
    NeverFatal p := by
  induction h with
  | token tok => exact nf_token tok
  | codepoint isMatch expected => exact nf_codepoint isMatch expected
  | codepoints isMatch expected => exact nf_codepoints isMatch expected
  | range a b expected => exact nf_range a b expected
  | skipChars n => exact nf_skipChars n
  | map p f _ ih => exact nf_map f ih
  | consume p _ ih => exact nf_consume ih
  | filter p pred expected fatal hff _ ih =>
    cases hff with
    | inl hf => subst hf; exact nf_filter pred expected ih
    | inr hf => simp at hf
  | or ps expected _ ih => exact nf_or expected ih
  | optional p _ ih => exact nf_optional ih
  | star p _ ih => exact nf_star ih
  | starConsumed p _ ih => exact nf_starConsumed ih
  | filterUndefined p _ ih => exact nf_filterUndefined ih
  | thenP p1 p2 join _ _ ih1 ih2 => exact nf_thenP join ih1 ih2
  | plus p _ ih => exact nf_plus ih
  | plusConsumed p _ ih => exact nf_plusConsumed ih
  | preceded p1 p2 _ _ ih1 ih2 => exact nf_preceded ih1 ih2
  | followed p1 p2 _ _ ih1 ih2 => exact nf_followed ih1 ih2
  | delimited p1 p2 p3 _ _ _ ih1 ih2 ih3 => exact nf_delimited ih1 ih2 ih3
  | recognize p _ ih => exact nf_recognize ih
  | peek p _ ih => exact nf_peek ih
  | notP p expected _ _ih => exact nf_not p expected
  | exceptP p q expected _ _ ih1 _ih2 => exact nf_except expected ih1
  | dispatch mapping otherwise extraOffset expected _ _ ihm iho =>
    exact nf_dispatch extraOffset expected ihm iho
  | start => exact nf_start
  | endP => exact nf_endP
  | complete p _ ih => exact nf_complete ih

/-- Counterexample to C5 as stated: `filter` with its `fatal` flag set
produces a fatal failure in a grammar containing neither `cut` nor
`delimited` with `cutAfterOpen`, and `not` converts a fatal inner failure
into a success rather than propagating it. -/
theorem fatal_taxonomy_counterexample :
    (CutFree true (Prsc.filter (Prsc.token [97]) (fun _ => false) [[120]] true) ∧
      Prsc.filter (Prsc.token [97]) (fun _ => false) [[120]] true [97] 0 =
        Prsc.ParseResult.failure 0 [[120]] true) ∧
    Prsc.not (Prsc.cut (Prsc.token [97])) [[122]] [98] 0 =
      Prsc.ParseResult.success 0 () := by
  refine ⟨⟨?_, rfl⟩, rfl⟩
  exact CutFree.filter _ _ _ _ (Or.inr rfl) (CutFree.token [97])

/-- C5 (amended): a fatal failure is produced only by `cut`, `delimited`
with `cutAfterOpen=true`, or `filter` with its `fatal` flag set — a grammar
avoiding all three never reports one; and each combinator other than `not`
and `except` (whose negation turns any inner failure, fatal included, into
a success) returns a fatal failure of its inner parser unchanged, with
`or`, `star`, `optional` stopping immediately to surface it. -/
theorem fatal_taxonomy :
    (∀ {T : Type} (p : Prsc.Parser T), CutFree false p →
      ∀ input offset o e, p input offset ≠ Prsc.ParseResult.failure o e true)
    ∧ (∀ {A B : Type} (p : Prsc.Parser A) (f : A → B) input offset o e,
        p input offset = Prsc.ParseResult.failure o e true →
        Prsc.map p f input offset = Prsc.ParseResult.failure o e true)
    ∧ (∀ {A : Type} (p : Prsc.Parser A) input offset o e,
        p input offset = Prsc.ParseResult.failure o e true →
        Prsc.consume p input offset = Prsc.ParseResult.failure o e true)
    ∧ (∀ {A : Type} (p : Prsc.Parser A) (pred : A → Bool) expected fatal input offset o e,
        p input offset = Prsc.ParseResult.failure o e true →
        Prsc.filter p pred expected fatal input offset = Prsc.ParseResult.failure o e true)
    ∧ (∀ {A B C : Type} (p1 : Prsc.Parser A) (p2 : Prsc.Parser B) (join : A → B → C)
        input offset o e,
        p1 input offset = Prsc.ParseResult.failure o e true →
        Prsc.thenP p1 p2 join input offset = Prsc.ParseResult.failure o e true)
    ∧ (∀ {A B C : Type} (p1 : Prsc.Parser A) (p2 : Prsc.Parser B) (join : A → B → C)
        input offset o1 v1 o e,
        p1 input offset = Prsc.ParseResult.success o1 v1 →
        p2 input o1 = Prsc.ParseResult.failure o e true →
        Prsc.thenP p1 p2 join input offset = Prsc.ParseResult.failure o e true)
    ∧ (∀ {A B : Type} (p1 : Prsc.Parser A) (p2 : Prsc.Parser B) input offset o e,
        p1 input offset = Prsc.ParseResult.failure o e true →
        Prsc.preceded p1 p2 input offset = Prsc.ParseResult.failure o e true)
    ∧ (∀ {A B : Type} (p1 : Prsc.Parser A) (p2 : Prsc.Parser B) input offset o e,
        p1 input offset = Prsc.ParseResult.failure o e true →
        Prsc.followed p1 p2 input offset = Prsc.ParseResult.failure o e true)
    ∧ (∀ {A B C : Type} (p1 : Prsc.Parser A) (p2 : Prsc.Parser B) (p3 : Prsc.Parser C)
        (cutAfterOpen : Bool) input offset o e,
        p1 input offset = Prsc.ParseResult.failure o e true →
        Prsc.delimited p1 p2 p3 cutAfterOpen input offset =
          Prsc.ParseResult.failure o e true)
    ∧ (∀ {A B C : Type} (p1 : Prsc.Parser A) (p2 : Prsc.Parser B) (p3 : Prsc.Parser C)
        input offset o1 v1 o e,
        p1 input offset = Prsc.ParseResult.success o1 v1 →
        p2 input o1 = Prsc.ParseResult.failure o e true →
        Prsc.delimited p1 p2 p3 true input offset = Prsc.ParseResult.failure o e true)
    ∧ (∀ {A : Type} (p : Prsc.Parser A) input offset o e,
        p input offset = Prsc.ParseResult.failure o e true →
        Prsc.recognize p input offset = Prsc.ParseResult.failure o e true)
    ∧ (∀ {A : Type} (p : Prsc.Parser A) input offset o e,
        p input offset = Prsc.ParseResult.failure o e true →
        Prsc.peek p input offset = Prsc.ParseResult.failure o e true)
    ∧ (∀ {A : Type} (p : Prsc.Parser A) input offset o e,
        p input offset = Prsc.ParseResult.failure o e true →
        Prsc.plus p input offset = Prsc.ParseResult.failure o e true)
    ∧ (∀ {A : Type} (p : Prsc.Parser A) input offset o e,
        p input offset = Prsc.ParseResult.failure o e true →
        Prsc.plusConsumed p input offset = Prsc.ParseResult.failure o e true)
    ∧ (∀ {A : Type} (p : Prsc.Parser (List (Option A))) input offset o e,
        p input offset = Prsc.ParseResult.failure o e true →
        Prsc.filterUndefined p input offset = Prsc.ParseResult.failure o e true)
    ∧ (∀ {A : Type} (mapping : List (Nat × Prsc.Parser A))
        (otherwise : Option (Prsc.Parser A)) (extraOffset : Nat)
        (expected : List Prsc.JSString) input offset cp (q : Prsc.Parser A) o e,
        Prsc.codePointAt input (offset + extraOffset) = some cp →
        List.lookup cp mapping = some q →
        q input offset = Prsc.ParseResult.failure o e true →
        Prsc.dispatch mapping otherwise extraOffset expected input offset =
          Prsc.ParseResult.failure o e true)
    ∧ (∀ {A : Type} (p : Prsc.Parser A) input offset o e,
        p input offset = Prsc.ParseResult.failure o e true →
        Prsc.cut p input offset = Prsc.ParseResult.failure o e true)
    ∧ (∀ {A : Type} (p : Prsc.Parser A) input offset o e,
        p input offset = Prsc.ParseResult.failure o e true →
        Prsc.complete p input offset = Prsc.ParseResult.failure o e true)
    ∧ (∀ {A : Type} (ps : List (Prsc.Parser A)) (p : Prsc.Parser A)
        (expected : Option (List Prsc.JSString)) input offset o e,
        p input offset = Prsc.ParseResult.failure o e true →
        Prsc.or (p :: ps) expected input offset = Prsc.ParseResult.failure o e true)
    ∧ (∀ {A : Type} (p : Prsc.Parser A) input offset o e,
        p input offset = Prsc.ParseResult.failure o e true →
        Prsc.star p input offset = Prsc.ParseResult.failure o e true)
    ∧ (∀ {A : Type} (p : Prsc.Parser A) input offset o e,
        p input offset = Prsc.ParseResult.failure o e true →
        Prsc.starConsumed p input offset = Prsc.ParseResult.failure o e true)
    ∧ (∀ {A : Type} (p : Prsc.Parser A) input offset o e,
        p input offset = Prsc.ParseResult.failure o e true →
        Prsc.optional p input offset = Prsc.ParseResult.failure o e true) := by
  refine ⟨?_, ?_, ?_, ?_, ?_, ?_, ?_, ?_, ?_, ?_, ?_, ?_, ?_, ?_, ?_, ?_, ?_, ?_, ?_,
    ?_, ?_, ?_⟩
  · intro T p hcf input offset o e
    exact cutFree_neverFatal hcf input offset o e
  · intro A B p f input offset o e h
    simp [Prsc.map, h]
  · intro A p input offset o e h
    simp [Prsc.consume, Prsc.map, h]
  · intro A p pred expected fatal input offset o e h
    simp [Prsc.filter, h]
  · intro A B C p1 p2 join input offset o e h
    simp [Prsc.thenP, h]
  · intro A B C p1 p2 join input offset o1 v1 o e h1 h2
    simp [Prsc.thenP, h1, h2]
  · intro A B p1 p2 input offset o e h
    simp [Prsc.preceded, Prsc.thenP, h]
  · intro A B p1 p2 input offset o e h
    simp [Prsc.followed, Prsc.thenP, h]
  · intro A B C p1 p2 p3 cutAfterOpen input offset o e h
    cases cutAfterOpen with
    | true =>
      simp [Prsc.delimited, Prsc.preceded, Prsc.thenP, h]
    | false =>
      simp [Prsc.delimited, Prsc.preceded, Prsc.thenP, h]
  · intro A B C p1 p2 p3 input offset o1 v1 o e h1 h2
    simp [Prsc.delimited, Prsc.preceded, Prsc.followed, Prsc.thenP, Prsc.cut, h1, h2,
      Prsc.error]
  · intro A p input offset o e h
    simp [Prsc.recognize, h]
  · intro A p input offset o e h
    simp [Prsc.peek, h]
  · intro A p input offset o e h
    simp [Prsc.plus, Prsc.thenP, h]
  · intro A p input offset o e h
    simp [Prsc.plusConsumed, Prsc.thenP, h]
  · intro A p input offset o e h
    simp [Prsc.filterUndefined, Prsc.map, h]
  · intro A mapping otherwise extraOffset expected input offset cp q o e hcp hl hq
    simp [Prsc.dispatch, hcp, hl, hq]
  · intro A p input offset o e h
    simp [Prsc.cut, h, Prsc.error]
  · intro A p input offset o e h
    simp [Prsc.complete, Prsc.thenP, h]
  · intro A ps p expected input offset o e h
    simp [Prsc.or, Prsc.orGo, h]
  · intro A p input offset o e h
    unfold Prsc.star Prsc.starLoop
    simp [h]
  · intro A p input offset o e h
    unfold Prsc.starConsumed Prsc.starConsumedLoop
    simp [h]
  · intro A p input offset o e h
    simp [Prsc.optional, h]

/-- Witness for C5: `map` over a cut token propagates the fatal failure
unchanged. -/
theorem fatal_taxonomy_witness :
    Prsc.map (Prsc.cut (Prsc.token [97])) (fun v => v) [98] 0 =
      Prsc.ParseResult.failure 0 [[97]] true :=
  fatal_taxonomy.2.1 (Prsc.cut (Prsc.token [97])) (fun v => v) [98] 0 0 [[97]] rfl

/-!
Incremental/synchronous equivalence. `SGram` is a grammar built purely from
the mirrored streaming operators over arbitrary underlying parsers;
`evalStreaming` runs it with the streaming combinators, `evalSync` with the
corresponding synchronous ones under the flattening that turns each lifted
parser's value into a singleton list and concatenates through sequencing
and repetition.
-/

/-- Grammars built purely from the mirrored streaming operators:
lifting (`streaming`), sequencing (`streamingThen`), repetition
(`streamingStar`), option (`streamingOptional`), completion
(`streamingComplete`) and undefined-filtering (`streamingFilterUndefined`). -/
inductive SGram : Type → Type 1 where
  | base {T : Type} : Prsc.Parser T → SGram T
  | sthen {T : Type} : SGram T → SGram T → SGram T
  | sstar {T : Type} : SGram T → SGram T
  | soptional {T : Type} : SGram T → SGram T
  | scomplete {T : Type} : SGram T → SGram T
  | sfilterUndefined {T : Type} : SGram (Option T) → SGram T

/-- The streaming interpretation of a grammar. -/
def evalStreaming : ∀ {T : Type}, SGram T → Prsc.StreamingParser T
  | _, .base p => Prsc.streaming p
  | _, .sthen a b => Prsc.streamingThen (evalStreaming a) (evalStreaming b)
  | _, .sstar a => Prsc.streamingStar (evalStreaming a)
  | _, .soptional a => Prsc.streamingOptional (evalStreaming a)
  | _, .scomplete a => Prsc.streamingComplete (evalStreaming a)
  | _, .sfilterUndefined a => Prsc.streamingFilterUndefined (evalStreaming a)

/-- The corresponding synchronous interpretation, under the flattening that
maps a lifted parser's value to a singleton list, concatenates through
`then`, flattens `star`'s collected lists, turns `optional`'s null into the
empty list, and filters out the undefined entries. -/
def evalSync : ∀ {T : Type}, SGram T → Prsc.Parser (List T)
  | _, .base p => Prsc.map p (fun v => [v])
  | _, .sthen a b => Prsc.thenP (evalSync a) (evalSync b) (fun x y => x ++ y)
  | _, .sstar a => Prsc.map (Prsc.star (evalSync a)) (fun ls => ls.flatten)
  | _, .soptional a => Prsc.map (Prsc.optional (evalSync a)) (fun x => x.getD [])
  | _, .scomplete a => Prsc.complete (evalSync a)
  | _, .sfilterUndefined a => Prsc.filterUndefined (evalSync a)

/-- The equivalence relation between a fully-driven streaming run and a
synchronous result: on success the streamed items concatenate to exactly
the synchronous value and both succeed at the same offset; on failure both
report the same failure (offset, expected, fatality). -/
def StreamCorr {T : Type} (s : List T × Prsc.ParseResult Unit)
    (r : Prsc.ParseResult (List T)) : Prop :=
  match r with
  | .success o v => s = (v, Prsc.ParseResult.success o ())
  | .failure o e fatal => s.2 = Prsc.ParseResult.failure o e fatal

lemma streamingStarLoop_corr {T : Type} {sp : Prsc.StreamingParser T}
    {p : Prsc.Parser (List T)} {input : Prsc.JSString}
    (hcorr : ∀ offset, StreamCorr (sp input offset) (p input offset)) :
    ∀ fuel offset accI accL, accI = accL.flatten →
      (match Prsc.starLoop p input fuel offset accL with
       | .success o lists =>
         Prsc.streamingStarLoop sp input fuel offset accI =
           (lists.flatten, Prsc.ParseResult.success o ())
       | .failure o e fatal =>
         (Prsc.streamingStarLoop sp input fuel offset accI).2 =
           Prsc.ParseResult.failure o e fatal) := by
  intro fuel
  induction fuel with
  | zero =>
    intro offset accI accL hacc
    simp [Prsc.starLoop, Prsc.streamingStarLoop]
  | succ f ih =>
    intro offset accI accL hacc
    have hc := hcorr offset
    cases hsp : sp input offset with
    | mk vs r =>
      rw [hsp] at hc
      cases hp : p input offset with
      | failure o e fatal =>
        rw [hp] at hc
        simp only [StreamCorr] at hc
        unfold Prsc.starLoop Prsc.streamingStarLoop
        rw [hp, hsp, hc]
        cases fatal with
        | true => simp
        | false => simp [Prsc.ok, Prsc.okWithValue, hacc]
      | success o lists =>
        rw [hp] at hc
        simp only [StreamCorr] at hc
        rw [hc] at hsp
        unfold Prsc.starLoop Prsc.streamingStarLoop
        rw [hp, hsp]
        by_cases heq : o = offset
        · subst heq
          simp [Prsc.ok, Prsc.okWithValue, hacc]
        · have heq' : ¬ (offset = o) := fun hh => heq hh.symm
          simp only [if_neg heq, if_neg heq']
          have := ih o (accI ++ lists) (accL ++ [lists]) (by simp [hacc])
          exact this

/-- C4: for every grammar built purely from the mirrored streaming
operators over underlying parsers, and every input and starting offset,
running the streaming form and concatenating all yielded items in order
produces the same flattened value as running the corresponding synchronous
combinators, and both forms report success or failure at the same offset
(with the same expected list and fatality). -/
theorem streaming_equiv_sync {T : Type} (g : SGram T) (input : Prsc.JSString)
    (offset : Nat) :
    StreamCorr (evalStreaming g input offset) (evalSync g input offset) := by
  induction g generalizing offset with
  | base p =>
    unfold evalStreaming evalSync
    cases hp : p input offset with
    | success o v => simp [StreamCorr, Prsc.streaming, Prsc.map, hp, Prsc.okWithValue]
    | failure o e fatal => simp [StreamCorr, Prsc.streaming, Prsc.map, hp]
  | sthen a b iha ihb =>
    unfold evalStreaming evalSync
    have ha := iha offset
    cases hsa : evalSync a input offset with
    | failure o e fatal =>
      rw [hsa] at ha
      simp only [StreamCorr] at ha
      cases hga : evalStreaming a input offset with
      | mk vs1 r1 =>
        rw [hga] at ha
        simp only at ha
        subst ha
        simp [StreamCorr, Prsc.streamingThen, Prsc.thenP, hsa, hga]
    | success o1 v1 =>
      rw [hsa] at ha
      simp only [StreamCorr] at ha
      have hb := ihb o1
      cases hsb : evalSync b input o1 with
      | failure o e fatal =>
        rw [hsb] at hb
        simp only [StreamCorr] at hb
        cases hgb : evalStreaming b input o1 with
        | mk vs2 r2 =>
          rw [hgb] at hb
          simp only at hb
          subst hb
          simp [StreamCorr, Prsc.streamingThen, Prsc.thenP, hsa, hsb, ha, hgb]
      | success o2 v2 =>
        rw [hsb] at hb
        simp only [StreamCorr] at hb
        simp [StreamCorr, Prsc.streamingThen, Prsc.thenP, hsa, hsb, ha, hb,
          Prsc.okWithValue]
  | sstar a iha =>
    unfold evalStreaming evalSync
    have hloop := streamingStarLoop_corr (fun off => iha off) (input.length + 1)
      offset [] [] rfl
    cases hst : Prsc.starLoop (evalSync a) input (input.length + 1) offset [] with
    | success o lists =>
      rw [hst] at hloop
      simp only at hloop
      simp [StreamCorr, Prsc.streamingStar, Prsc.star, Prsc.map, hst, hloop,
        Prsc.okWithValue]
    | failure o e fatal =>
      rw [hst] at hloop
      simp only at hloop
      simp [StreamCorr, Prsc.streamingStar, Prsc.star, Prsc.map, hst, hloop]
  | soptional a iha =>
    unfold evalStreaming evalSync
    have ha := iha offset
    cases hsa : evalSync a input offset with
    | success o v =>
      rw [hsa] at ha
      simp only [StreamCorr] at ha
      simp [StreamCorr, Prsc.streamingOptional, Prsc.optional, Prsc.map, hsa, ha,
        Prsc.okWithValue]
    | failure o e fatal =>
      rw [hsa] at ha
      simp only [StreamCorr] at ha
      cases hga : evalStreaming a input offset with
      | mk vs1 r1 =>
        rw [hga] at ha
        simp only at ha
        subst ha
        cases fatal with
        | true =>
          simp [StreamCorr, Prsc.streamingOptional, Prsc.optional, Prsc.map, hsa, hga]
        | false =>
          simp [StreamCorr, Prsc.streamingOptional, Prsc.optional, Prsc.map, hsa, hga,
            Prsc.ok, Prsc.okWithValue]
  | scomplete a iha =>
    unfold evalStreaming evalSync
    have ha := iha offset
    cases hsa : evalSync a input offset with
    | success o v =>
      rw [hsa] at ha
      simp only [StreamCorr] at ha
      by_cases hlen : input.length = o
      · simp [StreamCorr, Prsc.streamingComplete, Prsc.complete, Prsc.thenP, Prsc.endP,
          hsa, ha, hlen, Prsc.ok, Prsc.okWithValue, Prsc.first]
      · simp [StreamCorr, Prsc.streamingComplete, Prsc.complete, Prsc.thenP, Prsc.endP,
          hsa, ha, hlen, Prsc.error]
    | failure o e fatal =>
      rw [hsa] at ha
      simp only [StreamCorr] at ha
      cases hga : evalStreaming a input offset with
      | mk vs1 r1 =>
        rw [hga] at ha
        simp only at ha
        subst ha
        simp [StreamCorr, Prsc.streamingComplete, Prsc.complete, Prsc.thenP, hsa, hga]
  | sfilterUndefined a iha =>
    unfold evalStreaming evalSync
    have ha := iha offset
    cases hsa : evalSync a input offset with
    | success o v =>
      rw [hsa] at ha
      simp only [StreamCorr] at ha
      simp [StreamCorr, Prsc.streamingFilterUndefined, Prsc.filterUndefined, Prsc.map,
        hsa, ha, Prsc.okWithValue]
    | failure o e fatal =>
      rw [hsa] at ha
      simp only [StreamCorr] at ha
      cases hga : evalStreaming a input offset with
      | mk vs1 r1 =>
        rw [hga] at ha
        simp only at ha
        subst ha
        simp [StreamCorr, Prsc.streamingFilterUndefined, Prsc.filterUndefined, Prsc.map,
          hsa, hga]

lemma and_mask_of_and_mask {b M V m : Nat} (hMm : M &&& m = m) (h : b &&& M = V) :
    b &&& m = V &&& m := by
  calc b &&& m = b &&& (M &&& m) := by rw [hMm]
    _ = b &&& M &&& m := by rw [Nat.and_assoc]
    _ = V &&& m := by rw [h]

/-- Counterexample to C9 as stated: the decoder accepts a continuation byte
(0x41) that does not carry the 10xxxxxx prefix, silently decoding 0xC2 0x41
to code point 129 instead of validating; and the invalid leading byte 0xFF
on a one-byte input yields "no code point" rather than aborting with an
exception. -/
theorem utf8_decoder_counterexample :
    (Prsc.getUtf8Codepoint [0xc2, 0x41] 0 = Except.ok (some 129) ∧
      (0x41 : Nat) &&& 0xc0 ≠ 0x80) ∧
    Prsc.getUtf8Codepoint [0xff] 0 = Except.ok none := by
  refine ⟨⟨rfl, by decide⟩, rfl⟩

/-- C9 (amended): the decoder reads a 1–4 byte sequence selected by the
leading byte's bit pattern, masking each continuation byte's low six bits
without validating its 10xxxxxx prefix; whenever a byte it needs to read
past the leading byte is missing it yields "no code point", which the
byte-oriented primitives treat as an ordinary non-fatal failure; and a
leading byte matching none of the 1/2/3/4-byte patterns aborts decoding
with an exception exactly when the three bytes after it are all present. -/
theorem utf8_decoder_decodes :
    (∀ (input : List Nat) (offset b : Nat), input.get? offset = some b →
      b &&& 0x80 = 0 →
      Prsc.getUtf8Codepoint input offset = Except.ok (some b))
    ∧ (∀ (input : List Nat) (offset : Nat),
      ((input.get? offset).getD 0) &&& 0x80 ≠ 0 →
      input.get? (offset + 1) = none →
      Prsc.getUtf8Codepoint input offset = Except.ok none)
    ∧ (∀ (input : List Nat) (offset b s : Nat), input.get? offset = some b →
      b &&& 0xe0 = 0xc0 → input.get? (offset + 1) = some s →
      Prsc.getUtf8Codepoint input offset =
        Except.ok (some (((b &&& 0x1f) <<< 6) ||| (s &&& 0x3f))))
    ∧ (∀ (input : List Nat) (offset b s : Nat), input.get? offset = some b →
      b &&& 0xf0 = 0xe0 → input.get? (offset + 1) = some s →
      input.get? (offset + 2) = none →
      Prsc.getUtf8Codepoint input offset = Except.ok none)
    ∧ (∀ (input : List Nat) (offset b s t : Nat), input.get? offset = some b →
      b &&& 0xf0 = 0xe0 → input.get? (offset + 1) = some s →
      input.get? (offset + 2) = some t →
      Prsc.getUtf8Codepoint input offset =
        Except.ok (some (((b &&& 0xf) <<< 12) ||| ((s &&& 0x3f) <<< 6) ||| (t &&& 0x3f))))
    ∧ (∀ (input : List Nat) (offset b s t : Nat), input.get? offset = some b →
      b &&& 0xf8 = 0xf0 → input.get? (offset + 1) = some s →
      input.get? (offset + 2) = some t → input.get? (offset + 3) = none →
      Prsc.getUtf8Codepoint input offset = Except.ok none)
    ∧ (∀ (input : List Nat) (offset b s t u : Nat), input.get? offset = some b →
      b &&& 0xf8 = 0xf0 → input.get? (offset + 1) = some s →
      input.get? (offset + 2) = some t → input.get? (offset + 3) = some u →
      Prsc.getUtf8Codepoint input offset =
        Except.ok (some (((b &&& 0xf) <<< 18) ||| ((s &&& 0x3f) <<< 12) |||
          ((t &&& 0x3f) <<< 6) ||| (u &&& 0x3f))))
    ∧ (∀ (input : List Nat) (offset b s t u : Nat), input.get? offset = some b →
      b &&& 0x80 ≠ 0 → b &&& 0xe0 ≠ 0xc0 → b &&& 0xf0 ≠ 0xe0 → b &&& 0xf8 ≠ 0xf0 →
      input.get? (offset + 1) = some s → input.get? (offset + 2) = some t →
      input.get? (offset + 3) = some u →
      Prsc.getUtf8Codepoint input offset = Except.error ())
    ∧ (∀ (isMatch : Nat → Bool) (expected : List Prsc.JSString) (input : List Nat)
        (offset : Nat),
      Prsc.getUtf8Codepoint input offset = Except.ok none →
      Prsc.codepointUtf8 isMatch expected input offset =
        Except.ok (Prsc.ParseResult.failure offset expected false)) := by
  refine ⟨?_, ?_, ?_, ?_, ?_, ?_, ?_, ?_, ?_⟩
  · intro input offset b hb h80
    rw [List.get?_eq_getElem?] at hb
    simp [Prsc.getUtf8Codepoint, hb, h80]
  · intro input offset h80 hs
    simp only [Prsc.getUtf8Codepoint, hs]
    split
    next hz => exact absurd hz h80
    · rfl
  · intro input offset b s hb hlead hs
    rw [List.get?_eq_getElem?] at hb
    rw [List.get?_eq_getElem?] at hs
    have h80 : b &&& 0x80 ≠ 0 := by
      have hstep := and_mask_of_and_mask (by decide : (0xe0 : Nat) &&& 0x80 = 0x80) hlead
      have hval : b &&& 0x80 = 0x80 := hstep.trans (by decide)
      rw [hval]
      decide
    simp [Prsc.getUtf8Codepoint, hb, h80, hs, hlead]
  · intro input offset b s hb hlead hs ht
    rw [List.get?_eq_getElem?] at hb
    rw [List.get?_eq_getElem?] at hs
    rw [List.get?_eq_getElem?] at ht
    have h80 : b &&& 0x80 ≠ 0 := by
      have hstep := and_mask_of_and_mask (by decide : (0xf0 : Nat) &&& 0x80 = 0x80) hlead
      have hval : b &&& 0x80 = 0x80 := hstep.trans (by decide)
      rw [hval]
      decide
    have h2 : b &&& 0xe0 ≠ 0xc0 := by
      have hstep := and_mask_of_and_mask (by decide : (0xf0 : Nat) &&& 0xe0 = 0xe0) hlead
      have hval : b &&& 0xe0 = 0xe0 := hstep.trans (by decide)
      rw [hval]
      decide
    simp [Prsc.getUtf8Codepoint, hb, h80, hs, h2, ht]
  · intro input offset b s t hb hlead hs ht
    rw [List.get?_eq_getElem?] at hb
    rw [List.get?_eq_getElem?] at hs
    rw [List.get?_eq_getElem?] at ht
    have h80 : b &&& 0x80 ≠ 0 := by
      have hstep := and_mask_of_and_mask (by decide : (0xf0 : Nat) &&& 0x80 = 0x80) hlead
      have hval : b &&& 0x80 = 0x80 := hstep.trans (by decide)
      rw [hval]
      decide
    have h2 : b &&& 0xe0 ≠ 0xc0 := by
      have hstep := and_mask_of_and_mask (by decide : (0xf0 : Nat) &&& 0xe0 = 0xe0) hlead
      have hval : b &&& 0xe0 = 0xe0 := hstep.trans (by decide)
      rw [hval]
      decide
    simp [Prsc.getUtf8Codepoint, hb, h80, hs, h2, ht, hlead]
  · intro input offset b s t hb hlead hs ht hu
    rw [List.get?_eq_getElem?] at hb
    rw [List.get?_eq_getElem?] at hs
    rw [List.get?_eq_getElem?] at ht
    rw [List.get?_eq_getElem?] at hu
    have h80 : b &&& 0x80 ≠ 0 := by
      have hstep := and_mask_of_and_mask (by decide : (0xf8 : Nat) &&& 0x80 = 0x80) hlead
      have hval : b &&& 0x80 = 0x80 := hstep.trans (by decide)
      rw [hval]
      decide
    have h2 : b &&& 0xe0 ≠ 0xc0 := by
      have hstep := and_mask_of_and_mask (by decide : (0xf8 : Nat) &&& 0xe0 = 0xe0) hlead
      have hval : b &&& 0xe0 = 0xe0 := hstep.trans (by decide)
      rw [hval]
      decide
    have h3 : b &&& 0xf0 ≠ 0xe0 := by
      have hstep := and_mask_of_and_mask (by decide : (0xf8 : Nat) &&& 0xf0 = 0xf0) hlead
      have hval : b &&& 0xf0 = 0xf0 := hstep.trans (by decide)
      rw [hval]
      decide
    simp [Prsc.getUtf8Codepoint, hb, h80, hs, h2, ht, h3, hu]
  · intro input offset b s t u hb hlead hs ht hu
    rw [List.get?_eq_getElem?] at hb
    rw [List.get?_eq_getElem?] at hs
    rw [List.get?_eq_getElem?] at ht
    rw [List.get?_eq_getElem?] at hu
    have h80 : b &&& 0x80 ≠ 0 := by
      have hstep := and_mask_of_and_mask (by decide : (0xf8 : Nat) &&& 0x80 = 0x80) hlead
      have hval : b &&& 0x80 = 0x80 := hstep.trans (by decide)
      rw [hval]
      decide
    have h2 : b &&& 0xe0 ≠ 0xc0 := by
      have hstep := and_mask_of_and_mask (by decide : (0xf8 : Nat) &&& 0xe0 = 0xe0) hlead
      have hval : b &&& 0xe0 = 0xe0 := hstep.trans (by decide)
      rw [hval]
      decide
    have h3 : b &&& 0xf0 ≠ 0xe0 := by
      have hstep := and_mask_of_and_mask (by decide : (0xf8 : Nat) &&& 0xf0 = 0xf0) hlead
      have hval : b &&& 0xf0 = 0xf0 := hstep.trans (by decide)
      rw [hval]
      decide
    simp [Prsc.getUtf8Codepoint, hb, h80, hs, h2, ht, h3, hu, hlead]
  · intro input offset b s t u hb h80 h2 h3 h4 hs ht hu
    rw [List.get?_eq_getElem?] at hb
    rw [List.get?_eq_getElem?] at hs
    rw [List.get?_eq_getElem?] at ht
    rw [List.get?_eq_getElem?] at hu
    simp [Prsc.getUtf8Codepoint, hb, h80, hs, h2, ht, h3, hu, h4]
  · intro isMatch expected input offset h
    simp [Prsc.codepointUtf8, h, Prsc.error, Except.map]

/-- Witness for C9: the two-byte sequence 0xC2 0xA9 decodes to U+00A9 and a
lone 0xE2 lead with one continuation byte yields "no code point", which
`codepointUtf8` reports as an ordinary non-fatal failure. -/
theorem utf8_decoder_decodes_witness :
    Prsc.getUtf8Codepoint [0xc2, 0xa9] 0 = Except.ok (some 169) ∧
    Prsc.codepointUtf8 (fun _ => true) [[120]] [0xe2, 0x82] 0 =
      Except.ok (Prsc.ParseResult.failure 0 [[120]] false) := by
  constructor
  · have h := utf8_decoder_decodes.2.2.1 [0xc2, 0xa9] 0 0xc2 0xa9 rfl (by decide) rfl
    simpa using h
  · exact utf8_decoder_decodes.2.2.2.2.2.2.2.2 (fun _ => true) [[120]] [0xe2, 0x82] 0
      (utf8_decoder_decodes.2.2.2.1 [0xe2, 0x82] 0 0xe2 0x82 rfl (by decide) rfl rfl)
